import Mathlib

/-!
Verification of the cmirror mirror-benchmarking and source-switching tool.

The Rust sources under src/ are shallowly embedded below:
strings are lists of characters, the filesystem is an explicit finite map
from (directory, file name) pairs to file contents, the network is an
oracle mapping a requested URL to a probe outcome, and the third-party
TOML/JSON codecs are oracle parameters of the functions that use them.
Machine integers (u64 latencies) are natural numbers reduced mod 2^64
where the code truncates.
-/

/-- Character-list strings, the model of Rust String / str. -/
abbrev Str : Type := List Char

/-- Convert a Lean string literal to the model string type. -/
def chars (x : String) : Str := x.data

/-! ## String helpers used by the probe and the adapters -/

/-- Fuel-driven worker for `trimStartMatches` (structural recursion so that
concrete instances evaluate inside the kernel). -/
def trimAux (pat : Str) : Nat → Str → Str
  | 0, s => s
  | fuel + 1, s =>
    if pat ≠ [] ∧ pat.isPrefixOf s then trimAux pat fuel (s.drop pat.length) else s

/-- Model of Rust str::trim_start_matches: repeatedly removes the prefix
`pat` from the front of `s` (src/src/utils.rs lines 125-128 apply it with
the patterns "sparse+" and "git+"). -/
def trimStartMatches (pat s : Str) : Str := trimAux pat s.length s

theorem trimAux_eq_bounded (pat : Str) :
    ∀ (n : Nat) (s : Str) (fuel : Nat), s.length ≤ n → s.length ≤ fuel →
      trimAux pat fuel s = trimAux pat s.length s := by
  intro n
  induction n with
  | zero =>
    intro s fuel h1 _
    have hs : s = [] := List.length_eq_zero.mp (Nat.le_zero.mp h1)
    subst hs
    cases fuel with
    | zero => rfl
    | succ m =>
      have hnp : ¬(pat ≠ [] ∧ pat.isPrefixOf ([] : Str)) := by
        rintro ⟨hne, hpre⟩
        have := (List.isPrefixOf_iff_prefix.mp hpre).length_le
        simp at this
        exact hne this
      simp only [trimAux, List.length_nil]
      rw [if_neg hnp]
  | succ n ih =>
    intro s fuel h1 h2
    by_cases hp : pat ≠ [] ∧ pat.isPrefixOf s
    · have hpat : 1 ≤ pat.length := by
        cases hq : pat with
        | nil => exact absurd hq hp.1
        | cons a l => simp
      have hps : pat.length ≤ s.length :=
        (List.isPrefixOf_iff_prefix.mp hp.2).length_le
      have hd : (s.drop pat.length).length = s.length - pat.length := by
        simp [List.length_drop]
      obtain ⟨m, rfl⟩ : ∃ m, fuel = m + 1 := ⟨fuel - 1, by omega⟩
      obtain ⟨k, hk⟩ : ∃ k, s.length = k + 1 := ⟨s.length - 1, by omega⟩
      rw [hk]
      simp only [trimAux]
      rw [if_pos hp, if_pos hp]
      rw [ih _ m (by omega) (by omega), ih _ k (by omega) (by omega)]
    · cases s with
      | nil =>
        cases fuel with
        | zero => rfl
        | succ m =>
          simp only [trimAux, List.length_nil]
          rw [if_neg hp]
      | cons c rest =>
        obtain ⟨m, rfl⟩ : ∃ m, fuel = m + 1 := ⟨fuel - 1, by simp at h2; omega⟩
        simp only [trimAux, List.length_cons]
        rw [if_neg hp, if_neg hp]

theorem trimAux_eq_of_le (pat s : Str) (fuel : Nat) (h : s.length ≤ fuel) :
    trimAux pat fuel s = trimAux pat s.length s :=
  trimAux_eq_bounded pat s.length s fuel (le_refl _) h

theorem trimStartMatches_not_pre {pat s : Str} (h : pat.isPrefixOf s = false) :
    trimStartMatches pat s = s := by
  unfold trimStartMatches
  cases s with
  | nil => rfl
  | cons c rest =>
    simp only [trimAux, List.length_cons]
    rw [if_neg (by simp [h])]

theorem trimStartMatches_append (pat s : Str) (hp : pat ≠ []) :
    trimStartMatches pat (pat ++ s) = trimStartMatches pat s := by
  have hpre : pat.isPrefixOf (pat ++ s) := by
    exact List.isPrefixOf_iff_prefix.mpr (List.prefix_append pat s)
  have hpat : 1 ≤ pat.length := by
    cases hq : pat with
    | nil => exact absurd hq hp
    | cons a l => simp
  have hlen : (pat ++ s).length = pat.length + s.length := by simp
  unfold trimStartMatches
  obtain ⟨k, hk⟩ : ∃ k, (pat ++ s).length = k + 1 := ⟨(pat ++ s).length - 1, by omega⟩
  rw [hk]
  simp only [trimAux]
  rw [if_pos ⟨hp, hpre⟩]
  rw [List.drop_left]
  exact trimAux_eq_of_le pat s k (by omega)

/-- Fuel-driven worker for `replaceAll`. -/
def replaceAllAux (pat rep : Str) : Nat → Str → Str
  | 0, s => s
  | _ + 1, [] => []
  | fuel + 1, c :: rest =>
    if pat ≠ [] ∧ pat.isPrefixOf (c :: rest) then
      rep ++ replaceAllAux pat rep fuel ((c :: rest).drop pat.length)
    else
      c :: replaceAllAux pat rep fuel rest

/-- Model of Rust str::replace: replaces every non-overlapping occurrence of
`pat`, scanning left to right, with `rep` (used by the apt and pip adapters).
For the empty pattern this model returns `s` unchanged; the adapters only
ever pass non-empty patterns. -/
def replaceAll (pat rep s : Str) : Str := replaceAllAux pat rep s.length s

theorem replaceAllAux_eq_bounded (pat rep : Str) :
    ∀ (n : Nat) (s : Str) (fuel : Nat), s.length ≤ n → s.length ≤ fuel →
      replaceAllAux pat rep fuel s = replaceAllAux pat rep s.length s := by
  intro n
  induction n with
  | zero =>
    intro s fuel h1 _
    have hs : s = [] := List.length_eq_zero.mp (Nat.le_zero.mp h1)
    subst hs
    cases fuel <;> rfl
  | succ n ih =>
    intro s fuel h1 h2
    cases s with
    | nil => cases fuel <;> rfl
    | cons c rest =>
      obtain ⟨m, rfl⟩ : ∃ m, fuel = m + 1 := ⟨fuel - 1, by simp at h2; omega⟩
      have hlen : (c :: rest).length = rest.length + 1 := by simp
      have hrn : rest.length ≤ n := by simp at h1; omega
      have hrm : rest.length ≤ m := by simp at h2; omega
      by_cases hp : pat ≠ [] ∧ pat.isPrefixOf (c :: rest)
      · have hpat : 1 ≤ pat.length := by
          cases hq : pat with
          | nil => exact absurd hq hp.1
          | cons a l => simp
        have hps : pat.length ≤ (c :: rest).length :=
          (List.isPrefixOf_iff_prefix.mp hp.2).length_le
        have hd : ((c :: rest).drop pat.length).length =
            (c :: rest).length - pat.length := by simp [List.length_drop]
        simp only [replaceAllAux, List.length_cons]
        rw [if_pos hp, if_pos hp]
        congr 1
        rw [ih _ m (by rw [hd, hlen]; omega) (by rw [hd, hlen]; omega),
            ih _ rest.length (by rw [hd, hlen]; omega) (by rw [hd, hlen]; omega)]
      · simp only [replaceAllAux, List.length_cons]
        rw [if_neg hp, if_neg hp]
        congr 1
        rw [ih rest m hrn hrm, ih rest rest.length hrn (le_refl _)]

theorem replaceAllAux_eq_of_le (pat rep s : Str) (fuel : Nat) (h : s.length ≤ fuel) :
    replaceAllAux pat rep fuel s = replaceAllAux pat rep s.length s :=
  replaceAllAux_eq_bounded pat rep s.length s fuel (le_refl _) h

theorem replaceAll_nil (pat rep : Str) : replaceAll pat rep [] = [] := rfl

theorem replaceAll_cons_pos {pat : Str} (rep : Str) {c : Char} {rest : Str}
    (hp : pat ≠ []) (h : pat.isPrefixOf (c :: rest)) :
    replaceAll pat rep (c :: rest) =
      rep ++ replaceAll pat rep ((c :: rest).drop pat.length) := by
  have hpat : 1 ≤ pat.length := by
    cases hq : pat with
    | nil => exact absurd hq hp
    | cons a l => simp
  have hps : pat.length ≤ (c :: rest).length :=
    (List.isPrefixOf_iff_prefix.mp h).length_le
  unfold replaceAll
  simp only [replaceAllAux, List.length_cons]
  rw [if_pos ⟨hp, h⟩]
  congr 1
  exact replaceAllAux_eq_of_le pat rep _ rest.length
    (by simp [List.length_drop] at *; omega)

theorem replaceAll_cons_neg {pat : Str} (rep : Str) {c : Char} {rest : Str}
    (h : ¬(pat ≠ [] ∧ pat.isPrefixOf (c :: rest) = true)) :
    replaceAll pat rep (c :: rest) = c :: replaceAll pat rep rest := by
  unfold replaceAll
  simp only [replaceAllAux, List.length_cons]
  rw [if_neg h]

/-- A string containing no occurrence of the pattern is left unchanged by
`replaceAll`. -/
theorem replaceAll_of_no_occurrence {pat : Str} (rep : Str) :
    ∀ {s : Str}, ¬ pat <:+: s → replaceAll pat rep s = s := by
  intro s
  induction s with
  | nil => intro _; rfl
  | cons c rest ih =>
    intro hocc
    have hnp : ¬ pat.isPrefixOf (c :: rest) = true := by
      intro hp
      exact hocc ((List.isPrefixOf_iff_prefix.mp hp).isInfix)
    rw [replaceAll_cons_neg rep (by intro h; exact hnp h.2)]
    have : ¬ pat <:+: rest := by
      intro h
      exact hocc (h.trans (List.suffix_cons c rest).isInfix)
    rw [ih this]

/-! ## Line splitting and joining (the view a multi-line anchored regex has) -/

/-- Prepend a character to the first segment of a non-empty segment list. -/
def consHead (c : Char) : List Str → List Str
  | [] => [[c]]
  | l :: ls => (c :: l) :: ls

/-- Split a model string into its lines at every newline character; segments
carry no newline, and a trailing newline yields a final empty segment. -/
def splitLines : Str → List Str
  | [] => [[]]
  | c :: rest =>
    if c = '\n' then [] :: splitLines rest else consHead c (splitLines rest)

/-- Joins lines with single newline characters; left inverse of `splitLines`. -/
def joinLines : List Str → Str
  | [] => []
  | [l] => l
  | l :: l2 :: ls => l ++ '\n' :: joinLines (l2 :: ls)

theorem splitLines_ne_nil (s : Str) : splitLines s ≠ [] := by
  cases s with
  | nil => simp [splitLines]
  | cons c rest =>
    simp only [splitLines]
    by_cases h : c = '\n'
    · simp [h]
    · rw [if_neg h]
      cases splitLines rest <;> simp [consHead]

theorem joinLines_splitLines (s : Str) : joinLines (splitLines s) = s := by
  induction s with
  | nil => rfl
  | cons c rest ih =>
    simp only [splitLines]
    by_cases h : c = '\n'
    · rw [if_pos h]
      cases hs : splitLines rest with
      | nil => exact absurd hs (splitLines_ne_nil rest)
      | cons l ls =>
        rw [hs] at ih
        simp only [joinLines]
        rw [ih, h]
        rfl
    · rw [if_neg h]
      cases hs : splitLines rest with
      | nil => exact absurd hs (splitLines_ne_nil rest)
      | cons l ls =>
        rw [hs] at ih
        cases ls with
        | nil =>
          simp only [consHead, joinLines] at ih ⊢
          rw [ih]
        | cons l2 ls2 =>
          simp only [consHead, joinLines] at ih ⊢
          simp [ih]

theorem not_newline_mem_splitLines (s : Str) :
    ∀ l ∈ splitLines s, '\n' ∉ l := by
  induction s with
  | nil => intro l hl; simp [splitLines] at hl; simp [hl]
  | cons c rest ih =>
    intro l hl
    simp only [splitLines] at hl
    by_cases h : c = '\n'
    · rw [if_pos h] at hl
      rcases List.mem_cons.mp hl with h1 | h1
      · simp [h1]
      · exact ih l h1
    · rw [if_neg h] at hl
      cases hs : splitLines rest with
      | nil => exact absurd hs (splitLines_ne_nil rest)
      | cons l0 ls =>
        rw [hs] at hl
        simp only [consHead] at hl
        rcases List.mem_cons.mp hl with h1 | h1
        · subst h1
          intro hmem
          rcases List.mem_cons.mp hmem with h2 | h2
          · exact h h2.symm
          · exact ih l0 (by rw [hs]; exact List.mem_cons_self _ _) h2
        · exact ih l (by rw [hs]; exact List.mem_cons_of_mem _ h1)

theorem splitLines_append_newline (l rest : Str) (hl : '\n' ∉ l) :
    splitLines (l ++ '\n' :: rest) = l :: splitLines rest := by
  induction l with
  | nil => simp [splitLines]
  | cons c cs ih =>
    have hc : c ≠ '\n' := by
      intro h; exact hl (by rw [h]; exact List.mem_cons_self _ _)
    have hcs : '\n' ∉ cs := fun h => hl (List.mem_cons_of_mem _ h)
    show splitLines (c :: (cs ++ '\n' :: rest)) = (c :: cs) :: splitLines rest
    simp only [splitLines]
    rw [if_neg hc, ih hcs]
    rfl

theorem splitLines_eq_single (l : Str) (h : '\n' ∉ l) : splitLines l = [l] := by
  induction l with
  | nil => rfl
  | cons c cs ih =>
    have hc : c ≠ '\n' := by
      intro hx; exact h (by rw [hx]; exact List.mem_cons_self _ _)
    have hcs : '\n' ∉ cs := fun hx => h (List.mem_cons_of_mem _ hx)
    simp only [splitLines]
    rw [if_neg hc, ih hcs]
    rfl

theorem splitLines_joinLines :
    ∀ (ls : List Str), ls ≠ [] → (∀ l ∈ ls, '\n' ∉ l) →
      splitLines (joinLines ls) = ls := by
  intro ls
  induction ls with
  | nil => intro h; exact absurd rfl h
  | cons l ls ih =>
    intro _ hnl
    cases ls with
    | nil =>
      exact splitLines_eq_single l (hnl l (List.mem_cons_self _ _))
    | cons l2 ls2 =>
      have h0 : '\n' ∉ l := hnl l (List.mem_cons_self _ _)
      have hrest : ∀ x ∈ l2 :: ls2, '\n' ∉ x := by
        intro x hx; exact hnl x (List.mem_cons_of_mem _ hx)
      simp only [joinLines]
      rw [splitLines_append_newline l (joinLines (l2 :: ls2)) h0]
      rw [ih (by simp) hrest]

/-! ## Data model of the prober (src/src/types.rs) -/

/-- Mirror (src/src/types.rs line 5): a display name and an access URL. -/
structure Mirror where
  name : Str
  url : Str
deriving DecidableEq

/-- BenchmarkResult (src/src/types.rs line 21): a mirror together with its
measured latency in milliseconds; u64::MAX when the probe failed. -/
structure BenchmarkResult where
  mirror : Mirror
  latency_ms : Nat
deriving DecidableEq

/-- The u64 sentinel latency u64::MAX. -/
def U64_MAX : Nat := 2 ^ 64 - 1

/-- Outcome of the single HTTP HEAD request that check_latency awaits
(src/src/utils.rs line 136): either a response carrying a status code and
the elapsed milliseconds at which its headers arrived, or a transport
failure (connection refused, DNS failure, TLS failure, or the client-level
timeout firing). The network is an oracle from the requested URL to an
outcome. -/
inductive ProbeOutcome where
  | response (status : Nat) (elapsedMs : Nat)
  | failure
deriving DecidableEq

/-- Rust reqwest StatusCode::is_success: status in 200..=299. -/
def isSuccessStatus (st : Nat) : Bool := decide (200 ≤ st) && decide (st < 300)

/-- URL cleaning performed by check_latency (src/src/utils.rs lines 125-128):
url.trim_start_matches("sparse+").trim_start_matches("git+"). -/
def cleanUrl (u : Str) : Str :=
  trimStartMatches (chars "git+") (trimStartMatches (chars "sparse+") u)

/-- check_latency (src/src/utils.rs lines 120-157): issues one HEAD request
against the cleaned URL; a 2xx response yields the elapsed milliseconds
truncated to u64, any other response and any transport error yield
u64::MAX. The function is total into BenchmarkResult: no error is ever
propagated to the caller. -/
def check_latency (probe : Str → ProbeOutcome) (m : Mirror) : BenchmarkResult :=
  match probe (cleanUrl m.url) with
  | ProbeOutcome.response st el =>
    if isSuccessStatus st then BenchmarkResult.mk m (el % 2 ^ 64)
    else BenchmarkResult.mk m U64_MAX
  | ProbeOutcome.failure => BenchmarkResult.mk m U64_MAX

/-- Sort key order used by results.sort_by_key(latency_ms) (utils.rs line 114). -/
def latLe (a b : BenchmarkResult) : Prop := a.latency_ms ≤ b.latency_ms

instance : DecidableRel latLe := fun a b => Nat.decLe a.latency_ms b.latency_ms

instance : IsTotal BenchmarkResult latLe := ⟨fun a b => Nat.le_total a.latency_ms b.latency_ms⟩

instance : IsTrans BenchmarkResult latLe := ⟨fun _ _ _ => Nat.le_trans⟩

/-- benchmark_mirrors (src/src/utils.rs lines 80-117): probes every mirror
(join_all returns one result per input task, in input order) and then
stable-sorts the results ascending by latency_ms. Rust Vec::sort_by_key is
a stable sort; a stable sort with respect to a total preorder has a
uniquely determined output, so the structurally recursive stable
insertionSort used here computes the same list. The progress-bar side
channel carries no data and is omitted. -/
def benchmark_mirrors (probe : Str → ProbeOutcome) (mirrors : List Mirror) : List BenchmarkResult :=
  (mirrors.map (check_latency probe)).insertionSort latLe

theorem check_latency_mirror_eq (probe : Str → ProbeOutcome) (m : Mirror) :
    (check_latency probe m).mirror = m := by
  unfold check_latency
  cases probe (cleanUrl m.url) with
  | response st el => cases hst : isSuccessStatus st <;> simp [hst]
  | failure => rfl

theorem check_latency_le_max (probe : Str → ProbeOutcome) (m : Mirror) :
    (check_latency probe m).latency_ms ≤ U64_MAX := by
  unfold check_latency
  cases probe (cleanUrl m.url) with
  | response st el =>
    cases hst : isSuccessStatus st
    · simp [hst]
    · simp [hst]
      have := Nat.mod_lt el (show 0 < 2 ^ 64 by norm_num)
      unfold U64_MAX
      omega
  | failure => simp

/-- C1: benchmark_mirrors returns exactly one BenchmarkResult per input
mirror — the output length equals the input length and the multiset of
reported mirrors is exactly the input multiset, so no candidate is dropped
or duplicated and the empty candidate set yields the empty sequence — and
the output is sorted ascending by latency_ms, which places every
sentinel-valued (u64::MAX) entry strictly after every non-sentinel entry:
no non-sentinel entry ever follows a sentinel entry. -/
theorem benchmark_mirrors_complete_sorted (probe : Str → ProbeOutcome) (mirrors : List Mirror) :
    (benchmark_mirrors probe mirrors).length = mirrors.length ∧
    ((benchmark_mirrors probe mirrors).map BenchmarkResult.mirror).Perm mirrors ∧
    (benchmark_mirrors probe mirrors).Pairwise (fun a b => a.latency_ms ≤ b.latency_ms) ∧
    ∀ i j (hi : i < (benchmark_mirrors probe mirrors).length)
        (hj : j < (benchmark_mirrors probe mirrors).length), i < j →
      ((benchmark_mirrors probe mirrors).get ⟨i, hi⟩).latency_ms = U64_MAX →
      ((benchmark_mirrors probe mirrors).get ⟨j, hj⟩).latency_ms = U64_MAX := by
  have hperm : (benchmark_mirrors probe mirrors).Perm (mirrors.map (check_latency probe)) :=
    List.perm_insertionSort latLe (mirrors.map (check_latency probe))
  have hsorted : (benchmark_mirrors probe mirrors).Pairwise latLe :=
    List.sorted_insertionSort latLe (mirrors.map (check_latency probe))
  have hall : ∀ r ∈ benchmark_mirrors probe mirrors, r.latency_ms ≤ U64_MAX := by
    intro r hr
    have hr2 : r ∈ mirrors.map (check_latency probe) := hperm.mem_iff.mp hr
    obtain ⟨m, _, rfl⟩ := List.mem_map.mp hr2
    exact check_latency_le_max probe m
  refine ⟨?_, ?_, hsorted, ?_⟩
  · rw [hperm.length_eq, List.length_map]
  · have h1 : ((benchmark_mirrors probe mirrors).map BenchmarkResult.mirror).Perm
        ((mirrors.map (check_latency probe)).map BenchmarkResult.mirror) :=
      hperm.map BenchmarkResult.mirror
    have h2 : (mirrors.map (check_latency probe)).map BenchmarkResult.mirror = mirrors := by
      rw [List.map_map]
      have : ∀ m ∈ mirrors, (BenchmarkResult.mirror ∘ check_latency probe) m = id m := by
        intro m _
        simp only [Function.comp_apply, id_eq]
        exact check_latency_mirror_eq probe m
      rw [List.map_congr_left this, List.map_id]
    rw [h2] at h1
    exact h1
  · intro i j hi hj hij hmax
    have hle : latLe ((benchmark_mirrors probe mirrors).get ⟨i, hi⟩)
        ((benchmark_mirrors probe mirrors).get ⟨j, hj⟩) := by
      have := List.pairwise_iff_getElem.mp hsorted i j hi hj hij
      simpa using this
    have hub : ((benchmark_mirrors probe mirrors).get ⟨j, hj⟩).latency_ms ≤ U64_MAX :=
      hall _ (List.get_mem _ _ hj)
    unfold latLe at hle
    omega

/-- Concrete network oracle on which every probe fails. -/
def probeAllFailW : Str → ProbeOutcome := fun _ => ProbeOutcome.failure

/-- Concrete two-mirror candidate set for the C1 witness. -/
def mirrorsW : List Mirror :=
  [Mirror.mk (chars "M1") (chars "https://a.test"),
   Mirror.mk (chars "M2") (chars "https://b.test")]

/-- Witness for C1 at a concrete probe and candidate set, exercising the
sentinel-ordering clause at indices 0 and 1. -/
theorem benchmark_mirrors_complete_sorted_witness :
    (benchmark_mirrors probeAllFailW mirrorsW).length = 2 ∧
    ((benchmark_mirrors probeAllFailW mirrorsW).map BenchmarkResult.mirror).Perm mirrorsW ∧
    ((benchmark_mirrors probeAllFailW mirrorsW).get ⟨1, by decide⟩).latency_ms = U64_MAX := by
  have h := benchmark_mirrors_complete_sorted probeAllFailW mirrorsW
  refine ⟨by rw [h.1]; rfl, h.2.1, ?_⟩
  exact h.2.2.2 0 1 (by decide) (by decide) (by decide) (by decide)

/-- C2: a single check_latency invocation never propagates an error to the
caller (it is a total function into BenchmarkResult); every failure outcome
— transport error (connection/DNS/TLS failure or timeout) or a received
response whose status is not 2xx — yields latency_ms = u64::MAX, and a
response received with a 2xx status yields the measured elapsed
milliseconds (truncated to u64). -/
theorem check_latency_failure_to_sentinel (probe : Str → ProbeOutcome) (m : Mirror) :
    ((probe (cleanUrl m.url) = ProbeOutcome.failure ∨
      ∃ st el, probe (cleanUrl m.url) = ProbeOutcome.response st el ∧ isSuccessStatus st = false) →
      (check_latency probe m).latency_ms = U64_MAX) ∧
    (∀ st el, probe (cleanUrl m.url) = ProbeOutcome.response st el → isSuccessStatus st = true →
      (check_latency probe m).latency_ms = el % 2 ^ 64) := by
  constructor
  · rintro (h | ⟨st, el, h, hst⟩) <;> unfold check_latency <;> rw [h] <;> simp [hst]
  · intro st el h hst
    unfold check_latency
    rw [h]
    simp [hst]

/-- Concrete network oracle answering 200 after 42 ms. -/
def probeOkW : Str → ProbeOutcome := fun _ => ProbeOutcome.response 200 42

/-- Concrete mirror for the prober witnesses. -/
def mirrorW : Mirror := Mirror.mk (chars "Official") (chars "sparse+https://a.test/index")

/-- Witness for C2: the failure branch at a concrete failing probe and the
success branch at a concrete 200-response probe. -/
theorem check_latency_failure_to_sentinel_witness :
    (check_latency probeAllFailW mirrorW).latency_ms = U64_MAX ∧
    (check_latency probeOkW mirrorW).latency_ms = 42 % 2 ^ 64 :=
  And.intro
    ((check_latency_failure_to_sentinel probeAllFailW mirrorW).1 (Or.inl rfl))
    ((check_latency_failure_to_sentinel probeOkW mirrorW).2 200 42 rfl (by decide))

/-- C9: the probe strips the tool-specific "sparse+" and "git+" URL prefixes
only for the network request — the result depends on the network oracle
only through its value at the cleaned URL, and cleaning removes a leading
"sparse+" (and a leading "git+" when no "sparse+" precedes it) — while the
returned BenchmarkResult carries the original input mirror unchanged, with
its original name and url including any prefix. -/
theorem check_latency_original_mirror (probe probe' : Str → ProbeOutcome) (m : Mirror) (u : Str) :
    (check_latency probe m).mirror = m ∧
    (probe (cleanUrl m.url) = probe' (cleanUrl m.url) →
      check_latency probe m = check_latency probe' m) ∧
    cleanUrl (chars "sparse+" ++ u) = cleanUrl u ∧
    ((chars "sparse+").isPrefixOf u = false →
      cleanUrl (chars "git+" ++ u) = cleanUrl u) := by
  refine ⟨check_latency_mirror_eq probe m, ?_, ?_, ?_⟩
  · intro h
    unfold check_latency
    rw [h]
  · unfold cleanUrl
    rw [trimStartMatches_append (chars "sparse+") u (by decide)]
  · intro h
    have h1 : (chars "sparse+").isPrefixOf (chars "git+" ++ u) = false := rfl
    unfold cleanUrl
    rw [trimStartMatches_not_pre h1, trimStartMatches_not_pre h,
        trimStartMatches_append (chars "git+") u (by decide)]

/-- Witness for C9 at a concrete mirror whose url carries the "sparse+"
prefix, a concrete pair of oracles agreeing on the cleaned URL, and a
concrete suffix string. -/
theorem check_latency_original_mirror_witness :
    (check_latency probeOkW mirrorW).mirror = mirrorW ∧
    check_latency probeOkW mirrorW = check_latency probeOkW mirrorW ∧
    cleanUrl (chars "sparse+" ++ chars "https://a.test/index") = cleanUrl (chars "https://a.test/index") ∧
    cleanUrl (chars "git+" ++ chars "https://a.test/index") = cleanUrl (chars "https://a.test/index") := by
  have h := check_latency_original_mirror probeOkW probeOkW mirrorW (chars "https://a.test/index")
  exact ⟨h.1, h.2.1 rfl, h.2.2.1, h.2.2.2 (by decide)⟩

/-! ## Filesystem model

A path is a (parent directory, file name) pair; the filesystem is a list of
directories plus an association list from paths to contents. This models
exactly the operations the Rust code performs through tokio::fs:
try_exists, read_to_string, write, copy, create_dir_all and read_dir. -/

/-- A filesystem path split as Rust sees it via Path::parent / file_name. -/
structure FilePath where
  dir : Str
  name : Str
deriving DecidableEq

/-- Filesystem state: existing directories and files with their contents. -/
structure FS where
  dirs : List Str
  files : List (FilePath × Str)
deriving DecidableEq

/-- Read a file (tokio fs::read_to_string, as an Option). -/
def FS.lookup (fs : FS) (p : FilePath) : Option Str :=
  (fs.files.find? (fun e => decide (e.1 = p))).map (fun e => e.2)

/-- File existence (tokio fs::try_exists on a file path). -/
def FS.fileExists (fs : FS) (p : FilePath) : Bool := (fs.lookup p).isSome

/-- Directory existence (tokio fs::try_exists on a directory path). -/
def FS.dirExists (fs : FS) (d : Str) : Bool := fs.dirs.contains d

/-- Write a file (tokio fs::write, and the target side of fs::copy):
overwrites in place when present, appends a new entry otherwise. -/
def FS.write (fs : FS) (p : FilePath) (c : Str) : FS :=
  if fs.fileExists p then
    FS.mk fs.dirs (fs.files.map (fun e => if e.1 = p then (p, c) else e))
  else
    FS.mk fs.dirs (fs.files ++ [(p, c)])

/-- Create a directory (tokio fs::create_dir_all on the parent). -/
def FS.mkdir (fs : FS) (d : Str) : FS :=
  if fs.dirExists d then fs else FS.mk (fs.dirs ++ [d]) fs.files

/-- File names present in a directory (tokio fs::read_dir entries). -/
def FS.namesInDir (fs : FS) (d : Str) : List Str :=
  (fs.files.filter (fun e => decide (e.1.dir = d))).map (fun e => e.1.name)

theorem find?_key_update (l : List (FilePath × Str)) (p : FilePath) (c : Str) :
    (l.map (fun e => if e.1 = p then (p, c) else e)).find? (fun e => decide (e.1 = p)) =
      (l.find? (fun e => decide (e.1 = p))).map (fun _ => (p, c)) := by
  induction l with
  | nil => rfl
  | cons e l ih =>
    by_cases he : e.1 = p
    · rw [List.map_cons, if_pos he]
      rw [List.find?_cons_of_pos _ (by simp), List.find?_cons_of_pos _ (by simp [he])]
      rfl
    · rw [List.map_cons, if_neg he]
      rw [List.find?_cons_of_neg _ (by simp [he]), List.find?_cons_of_neg _ (by simp [he])]
      exact ih

theorem find?_key_update_ne (l : List (FilePath × Str)) (p q : FilePath) (c : Str)
    (hqp : q ≠ p) :
    (l.map (fun e => if e.1 = p then (p, c) else e)).find? (fun e => decide (e.1 = q)) =
      l.find? (fun e => decide (e.1 = q)) := by
  have hpq : p ≠ q := fun h => hqp h.symm
  induction l with
  | nil => rfl
  | cons e l ih =>
    by_cases he : e.1 = p
    · rw [List.map_cons, if_pos he]
      rw [List.find?_cons_of_neg _ (by simp [hpq]),
          List.find?_cons_of_neg _ (by simp [he, hpq])]
      exact ih
    · rw [List.map_cons, if_neg he]
      by_cases heq : e.1 = q
      · rw [List.find?_cons_of_pos _ (by simp [heq]), List.find?_cons_of_pos _ (by simp [heq])]
      · rw [List.find?_cons_of_neg _ (by simp [heq]), List.find?_cons_of_neg _ (by simp [heq])]
        exact ih

theorem FS.files_mk (ds : List Str) (fl : List (FilePath × Str)) :
    (FS.mk ds fl).files = fl := rfl

theorem FS.dirs_mk (ds : List Str) (fl : List (FilePath × Str)) :
    (FS.mk ds fl).dirs = ds := rfl

theorem FS.lookup_write_self (fs : FS) (p : FilePath) (c : Str) :
    (fs.write p c).lookup p = some c := by
  unfold FS.write
  by_cases h : fs.fileExists p = true
  · rw [if_pos h]
    have hsome : (fs.files.find? (fun e => decide (e.1 = p))).isSome = true := by
      unfold FS.fileExists FS.lookup at h
      simpa using h
    unfold FS.lookup
    rw [FS.files_mk, find?_key_update]
    obtain ⟨e, he⟩ := Option.isSome_iff_exists.mp hsome
    rw [he]
    rfl
  · rw [if_neg h]
    have hnone : fs.files.find? (fun e => decide (e.1 = p)) = none := by
      unfold FS.fileExists FS.lookup at h
      rcases ho : fs.files.find? (fun e => decide (e.1 = p)) with _ | e
      · exact ho
      · rw [ho] at h; simp at h
    unfold FS.lookup
    rw [FS.files_mk, List.find?_append, hnone]
    simp

theorem FS.lookup_write_ne (fs : FS) (p q : FilePath) (c : Str) (hqp : q ≠ p) :
    (fs.write p c).lookup q = fs.lookup q := by
  unfold FS.write
  by_cases h : fs.fileExists p = true
  · rw [if_pos h]
    unfold FS.lookup
    rw [FS.files_mk, find?_key_update_ne fs.files p q c hqp]
  · rw [if_neg h]
    unfold FS.lookup
    rw [FS.files_mk, List.find?_append]
    have hpq : p ≠ q := fun hx => hqp hx.symm
    have hlast : List.find? (fun e => decide (e.1 = q)) [(p, c)] = none := by
      simp [hpq]
    rw [hlast]
    simp

theorem FS.lookup_isSome_of_mem_namesInDir (fs : FS) (d n : Str)
    (h : n ∈ fs.namesInDir d) : (fs.lookup (FilePath.mk d n)).isSome = true := by
  unfold FS.namesInDir at h
  obtain ⟨e, he, hname⟩ := List.mem_map.mp h
  have hef := (List.mem_filter.mp he).1
  have hdir : e.1.dir = d := by
    have := (List.mem_filter.mp he).2
    simpa using this
  have hsome : (fs.files.find? (fun e => decide (e.1 = FilePath.mk d n))).isSome = true := by
    rw [List.find?_isSome]
    refine ⟨e, hef, ?_⟩
    obtain ⟨⟨ed, en⟩, ec⟩ := e
    simp at hdir hname
    simp [hdir, hname]
  unfold FS.lookup
  obtain ⟨e2, he2⟩ := Option.isSome_iff_exists.mp hsome
  rw [he2]
  rfl

/-! ## Lexicographic order on file names (Rust Vec::sort on PathBuf) -/

/-- Boolean lexicographic less-or-equal on character lists; this is the
order Rust PathBuf comparison induces on sibling file names (byte-wise
lexicographic UTF-8 order coincides with code-point lexicographic order). -/
def lexLeB : Str → Str → Bool
  | [], _ => true
  | _ :: _, [] => false
  | a :: as, b :: bs => if a = b then lexLeB as bs else decide (a < b)

/-- Propositional form of `lexLeB` for sorting. -/
def lexLe (a b : Str) : Prop := lexLeB a b = true

instance : DecidableRel lexLe := fun a b => inferInstanceAs (Decidable (lexLeB a b = true))

theorem lexLeB_refl : ∀ a : Str, lexLeB a a = true := by
  intro a
  induction a with
  | nil => rfl
  | cons c cs ih => simp [lexLeB, ih]

theorem lexLeB_total : ∀ a b : Str, lexLeB a b = true ∨ lexLeB b a = true := by
  intro a
  induction a with
  | nil => intro b; exact Or.inl rfl
  | cons x xs ih =>
    intro b
    cases b with
    | nil => exact Or.inr rfl
    | cons y ys =>
      by_cases hxy : x = y
      · subst hxy
        rcases ih ys with h | h
        · exact Or.inl (by simp [lexLeB, h])
        · exact Or.inr (by simp [lexLeB, h])
      · rcases lt_trichotomy x y with h | h | h
        · refine Or.inl ?_
          simp only [lexLeB, if_neg hxy]
          simp [h]
        · exact absurd h hxy
        · refine Or.inr ?_
          have hyx : ¬ y = x := fun hx => hxy hx.symm
          simp only [lexLeB, if_neg hyx]
          simp [h]

theorem lexLeB_trans : ∀ a b c : Str,
    lexLeB a b = true → lexLeB b c = true → lexLeB a c = true := by
  intro a
  induction a with
  | nil => intro b c _ _; rfl
  | cons x xs ih =>
    intro b c h1 h2
    cases b with
    | nil => simp [lexLeB] at h1
    | cons y ys =>
      cases c with
      | nil => simp [lexLeB] at h2
      | cons z zs =>
        by_cases hxy : x = y <;> by_cases hyz : y = z
        · subst hxy; subst hyz
          simp only [lexLeB, if_pos rfl] at h1 h2 ⊢
          exact ih ys zs h1 h2
        · subst hxy
          simp only [lexLeB, if_pos rfl, if_neg hyz] at h2 ⊢
          exact h2
        · subst hyz
          simp only [lexLeB, if_neg hxy] at h1 ⊢
          exact h1
        · simp only [lexLeB, if_neg hxy] at h1
          simp only [lexLeB, if_neg hyz] at h2
          have hlt : x < z := lt_trans (of_decide_eq_true h1) (of_decide_eq_true h2)
          have hxz : x ≠ z := ne_of_lt hlt
          simp [lexLeB, if_neg hxz, hlt]

instance : IsTotal Str lexLe := ⟨fun a b => lexLeB_total a b⟩

instance : IsTrans Str lexLe := ⟨fun a b c => lexLeB_trans a b c⟩

/-- Every member of a Pairwise-sorted non-empty list is below its last
element (or is the last element itself); stated with the reflexive `lexLe`. -/
theorem lexLe_getLast_of_pairwise (l : List Str) (hp : l.Pairwise lexLe) (h : l ≠ []) :
    ∀ b ∈ l, lexLe b (l.getLast h) := by
  intro b hb
  obtain ⟨⟨i, hi⟩, rfl⟩ := List.mem_iff_get.mp hb
  rw [List.getLast_eq_get]
  rcases Nat.lt_or_ge i (l.length - 1) with hlt | hge
  · have := List.pairwise_iff_getElem.mp hp i (l.length - 1) hi (by omega) hlt
    simpa using this
  · have : i = l.length - 1 := by omega
    subst this
    exact lexLeB_refl _

/-! ## BackupStore: backup_file and restore_latest_backup (src/src/utils.rs) -/

/-- Backup file name: the full original file name with a literal
".bak.<unix-epoch-seconds>" suffix appended (utils.rs lines 23-25); the
original extension stays in place because the suffix is appended to the
whole name rather than replacing the extension. -/
def bakName (name : Str) (ts : Nat) : Str := name ++ chars ".bak." ++ (Nat.repr ts).data

/-- backup_file (src/src/utils.rs lines 14-31): when the path exists, copies
its current content to the sibling `bakName` path in the same directory;
otherwise does nothing and succeeds. `ts` is the UNIX timestamp in seconds
observed by the call. -/
def backup_file (ts : Nat) (fs : FS) (p : FilePath) : FS :=
  match fs.lookup p with
  | some c => fs.write (FilePath.mk p.dir (bakName p.name ts)) c
  | none => fs

/-- Error outcomes of restore_latest_backup, distinguished exactly as the
Rust code distinguishes them: the MirrorError::Custom "Directory not
found: …" message, the MirrorError::Custom "No backup files found."
message, and an I/O failure of the final copy. -/
inductive RestoreError where
  | dirNotFound
  | noBackupFound
  | ioError
deriving DecidableEq

/-- Sibling backup entries for `p`: names in p's parent directory that start
with "<file-name>.bak." (utils.rs lines 46-54). -/
def backupNames (fs : FS) (p : FilePath) : List Str :=
  (fs.namesInDir p.dir).filter (fun n => (p.name ++ chars ".bak.").isPrefixOf n)

/-- restore_latest_backup (src/src/utils.rs lines 34-71): errors with
dirNotFound when the parent directory does not exist; collects the sibling
entries prefixed "<file-name>.bak." and errors with noBackupFound when
there are none; otherwise sorts them (Rust sorts the PathBuf vector, which
for siblings is the lexicographic order of the names) and copies the last,
lexicographically greatest, one over the live path. -/
def restore_latest_backup (fs : FS) (p : FilePath) : Except RestoreError FS :=
  if fs.dirExists p.dir = false then Except.error RestoreError.dirNotFound
  else if backupNames fs p = [] then Except.error RestoreError.noBackupFound
  else
    match fs.lookup
        (FilePath.mk p.dir
          ((((backupNames fs p).insertionSort lexLe).getLast?).getD [])) with
    | some c => Except.ok (fs.write p c)
    | none => Except.error RestoreError.ioError

instance {ε α : Type} [DecidableEq ε] [DecidableEq α] : DecidableEq (Except ε α) := fun a b =>
  match a, b with
  | Except.ok x, Except.ok y =>
    if h : x = y then isTrue (by rw [h]) else isFalse (fun hx => h (Except.ok.inj hx))
  | Except.error x, Except.error y =>
    if h : x = y then isTrue (by rw [h]) else isFalse (fun hx => h (Except.error.inj hx))
  | Except.ok _, Except.error _ => isFalse (fun hx => Except.noConfusion hx)
  | Except.error _, Except.ok _ => isFalse (fun hx => Except.noConfusion hx)

/-- C6: backup_file is a successful no-op when the path does not exist;
otherwise it copies the current content to a sibling file in the same
directory whose name is the original full file name with the literal
".bak.<unix-epoch-seconds>" suffix appended — the original extension is
kept, not replaced — and it changes no other file. -/
theorem backup_file_noop_or_sibling_copy (ts : Nat) (fs : FS) (p : FilePath) :
    (fs.fileExists p = false → backup_file ts fs p = fs) ∧
    (∀ c, fs.lookup p = some c →
      (backup_file ts fs p).lookup
        (FilePath.mk p.dir (p.name ++ chars ".bak." ++ (Nat.repr ts).data)) = some c ∧
      ∀ q, q ≠ FilePath.mk p.dir (p.name ++ chars ".bak." ++ (Nat.repr ts).data) →
        (backup_file ts fs p).lookup q = fs.lookup q) := by
  constructor
  · intro h
    unfold backup_file
    have hnone : fs.lookup p = none := by
      unfold FS.fileExists at h
      exact Option.not_isSome_iff_eq_none.mp (by simp [h])
    rw [hnone]
  · intro c hc
    unfold backup_file
    rw [hc]
    exact ⟨FS.lookup_write_self fs _ c, fun q hq => FS.lookup_write_ne fs _ q c hq⟩

/-- Concrete one-file filesystem for the backup witnesses. -/
def fsBakW : FS :=
  FS.mk [chars "/etc"] [(FilePath.mk (chars "/etc") (chars "pip.conf"), chars "old")]

/-- Path of the existing file in `fsBakW`. -/
def pBakW : FilePath := FilePath.mk (chars "/etc") (chars "pip.conf")

/-- A path absent from `fsBakW`. -/
def pBakMissingW : FilePath := FilePath.mk (chars "/etc") (chars "none.conf")

/-- Witness for C6: a no-op on the missing path, and the sibling copy
pip.conf -> pip.conf.bak.7 carrying the old content. -/
theorem backup_file_noop_or_sibling_copy_witness :
    backup_file 7 fsBakW pBakMissingW = fsBakW ∧
    (backup_file 7 fsBakW pBakW).lookup
      (FilePath.mk (chars "/etc") (chars "pip.conf.bak.7")) = some (chars "old") := by
  have h1 := (backup_file_noop_or_sibling_copy 7 fsBakW pBakMissingW).1 (by decide)
  have h2 := ((backup_file_noop_or_sibling_copy 7 fsBakW pBakW).2 (chars "old") (by decide)).1
  refine ⟨h1, ?_⟩
  have hname : FilePath.mk (chars "/etc") (chars "pip.conf.bak.7") =
      FilePath.mk pBakW.dir (pBakW.name ++ chars ".bak." ++ (Nat.repr 7).data) := by decide
  rw [hname]
  exact h2

/-- C10: when the parent directory of the path does not exist,
restore_latest_backup returns the distinct dirNotFound ("Directory not
found") error before scanning for backups — and, returning an error,
produces no filesystem change — while the noBackupFound ("no backup
found") error is produced exactly when the parent directory exists but
holds no matching backup entry; the two error kinds are distinct. -/
theorem restore_latest_backup_dir_check (fs : FS) (p : FilePath) :
    (fs.dirExists p.dir = false →
      restore_latest_backup fs p = Except.error RestoreError.dirNotFound) ∧
    (restore_latest_backup fs p = Except.error RestoreError.noBackupFound →
      fs.dirExists p.dir = true ∧ backupNames fs p = []) ∧
    RestoreError.dirNotFound ≠ RestoreError.noBackupFound := by
  refine ⟨?_, ?_, by decide⟩
  · intro h
    unfold restore_latest_backup
    rw [if_pos h]
  · intro h
    unfold restore_latest_backup at h
    by_cases hd : fs.dirExists p.dir = false
    · rw [if_pos hd] at h
      simp at h
    · rw [if_neg hd] at h
      refine ⟨by simpa using hd, ?_⟩
      by_cases hb : backupNames fs p = []
      · exact hb
      · rw [if_neg hb] at h
        split at h
        · exact absurd h (by simp)
        · exact absurd h (by simp)

/-- Filesystem with no directories at all. -/
def fsNoDirW : FS := FS.mk [] []

/-- Filesystem with an existing but empty /etc directory. -/
def fsEmptyDirW : FS := FS.mk [chars "/etc"] []

/-- Witness for C10: the missing-directory error at a concrete filesystem,
and the characterization of a concrete noBackupFound outcome. -/
theorem restore_latest_backup_dir_check_witness :
    restore_latest_backup fsNoDirW pBakW = Except.error RestoreError.dirNotFound ∧
    (fsEmptyDirW.dirExists pBakW.dir = true ∧ backupNames fsEmptyDirW pBakW = []) := by
  refine ⟨(restore_latest_backup_dir_check fsNoDirW pBakW).1 rfl, ?_⟩
  exact (restore_latest_backup_dir_check fsEmptyDirW pBakW).2.1 (by decide)

/-- Counterexample to C5 as stated: a path whose parent directory does not
exist has zero backup files, yet restore_latest_backup returns the
"Directory not found" error, not the "no backup found" error the claim
requires for every path with zero backups. -/
theorem restore_latest_backup_no_parent_cex :
    backupNames fsNoDirW pBakW = [] ∧
    restore_latest_backup fsNoDirW pBakW = Except.error RestoreError.dirNotFound ∧
    restore_latest_backup fsNoDirW pBakW ≠ Except.error RestoreError.noBackupFound := by
  refine ⟨rfl, rfl, by decide⟩

/-- C5 amended: provided the parent directory of the path exists,
restore_latest_backup with zero existing backup files returns the "no
backup found" error and, returning an error, leaves the target file
unchanged; when at least one backup exists it selects the sibling file
whose name is lexicographically greatest among those starting with
"<original-file-name>.bak." and copies its content over the live path.
(When the parent directory is missing, the distinct "Directory not found"
error of claim C10 is returned instead.) -/
theorem restore_latest_backup_selects_latest (fs : FS) (p : FilePath)
    (hdir : fs.dirExists p.dir = true) :
    (backupNames fs p = [] →
      restore_latest_backup fs p = Except.error RestoreError.noBackupFound) ∧
    (backupNames fs p ≠ [] →
      ∃ latest c, latest ∈ backupNames fs p ∧
        (∀ b ∈ backupNames fs p, lexLe b latest) ∧
        fs.lookup (FilePath.mk p.dir latest) = some c ∧
        restore_latest_backup fs p = Except.ok (fs.write p c)) := by
  have hdirne : ¬ (fs.dirExists p.dir = false) := by simp [hdir]
  constructor
  · intro hb
    unfold restore_latest_backup
    rw [if_neg hdirne, if_pos hb]
  · intro hb
    have hne : (backupNames fs p).insertionSort lexLe ≠ [] := by
      intro hx
      apply hb
      have hlen := (List.perm_insertionSort lexLe (backupNames fs p)).length_eq
      rw [hx] at hlen
      have hz : (backupNames fs p).length = 0 := by simpa using hlen.symm
      exact List.length_eq_zero.mp hz
    have hmem : ((backupNames fs p).insertionSort lexLe).getLast hne ∈ backupNames fs p :=
      (List.perm_insertionSort lexLe (backupNames fs p)).mem_iff.mp (List.getLast_mem hne)
    have hmax : ∀ b ∈ backupNames fs p,
        lexLe b (((backupNames fs p).insertionSort lexLe).getLast hne) := by
      intro b hbmem
      have hbs : b ∈ (backupNames fs p).insertionSort lexLe :=
        (List.perm_insertionSort lexLe (backupNames fs p)).mem_iff.mpr hbmem
      exact lexLe_getLast_of_pairwise _ (List.sorted_insertionSort lexLe _) hne b hbs
    have hmemdir : ((backupNames fs p).insertionSort lexLe).getLast hne ∈ fs.namesInDir p.dir :=
      (List.mem_filter.mp hmem).1
    have hsome := FS.lookup_isSome_of_mem_namesInDir fs p.dir _ hmemdir
    obtain ⟨c, hc⟩ := Option.isSome_iff_exists.mp hsome
    refine ⟨((backupNames fs p).insertionSort lexLe).getLast hne, c, hmem, hmax, hc, ?_⟩
    have hgl : ((((backupNames fs p).insertionSort lexLe).getLast?).getD []) =
        ((backupNames fs p).insertionSort lexLe).getLast hne := by
      rw [List.getLast?_eq_getLast _ hne]
      rfl
    unfold restore_latest_backup
    rw [if_neg hdirne, if_neg hb, hgl, hc]

/-- Concrete filesystem with two backups of pip.conf; note that
"pip.conf.bak.12" sorts lexicographically below "pip.conf.bak.3". -/
def fsRestoreW : FS :=
  FS.mk [chars "/etc"]
    [(FilePath.mk (chars "/etc") (chars "pip.conf.bak.3"), chars "A"),
     (FilePath.mk (chars "/etc") (chars "pip.conf.bak.12"), chars "B"),
     (FilePath.mk (chars "/etc") (chars "pip.conf"), chars "live")]

/-- Witness for the amended C5: among the backups bak.3 and bak.12 the
lexicographically greatest name bak.3 is restored. -/
theorem restore_latest_backup_selects_latest_witness :
    restore_latest_backup fsRestoreW pBakW =
      Except.ok (fsRestoreW.write pBakW (chars "A")) := by
  obtain ⟨latest, c, hmem, hmax, hlook, heq⟩ :=
    (restore_latest_backup_selects_latest fsRestoreW pBakW (by decide)).2 (by decide)
  have hbn : backupNames fsRestoreW pBakW =
      [chars "pip.conf.bak.3", chars "pip.conf.bak.12"] := by decide
  rw [hbn] at hmem
  have hlat3 : lexLe (chars "pip.conf.bak.3") latest := hmax _ (by decide)
  rcases List.mem_cons.mp hmem with h1 | h1
  · subst h1
    have hlA : fsRestoreW.lookup
        (FilePath.mk (chars "/etc") (chars "pip.conf.bak.3")) = some (chars "A") := by decide
    have hcA : c = chars "A" := by
      rw [show FilePath.mk pBakW.dir (chars "pip.conf.bak.3") =
            FilePath.mk (chars "/etc") (chars "pip.conf.bak.3") from by decide] at hlook
      rw [hlA] at hlook
      exact (Option.some.inj hlook).symm
    rw [hcA] at heq
    exact heq
  · rcases List.mem_cons.mp h1 with h2 | h2
    · subst h2
      exact absurd hlat3 (by decide)
    · simp at h2

/-! ## TOML model and the cargo adapter (src/src/sources/cargo.rs)

The toml crate is a third-party codec; its parser and serializer enter the
embedding as oracle parameters. The value tree is modelled as far as the
adapter inspects it: strings, tables (association maps, matching
toml::map::Map lookup/insert behaviour), and everything else. -/

/-- TOML value tree as the cargo adapter sees it. -/
inductive TomlValue where
  | str : Str → TomlValue
  | table : List (Str × TomlValue) → TomlValue
  | other : TomlValue

/-- toml::map::Map::get. -/
def tableGet (kvs : List (Str × TomlValue)) (k : Str) : Option TomlValue :=
  (kvs.find? (fun e => decide (e.1 = k))).map (fun e => e.2)

/-- toml::map::Map::insert: replaces the value under an existing key in
place, appends a fresh binding otherwise. -/
def tableInsert (kvs : List (Str × TomlValue)) (k : Str) (v : TomlValue) :
    List (Str × TomlValue) :=
  if (kvs.find? (fun e => decide (e.1 = k))).isSome then
    kvs.map (fun e => if e.1 = k then (k, v) else e)
  else kvs ++ [(k, v)]

/-- toml::map::Map::entry(k).or_insert(dflt): the map with the binding
ensured, together with the value now bound to k. -/
def entryOrInsert (kvs : List (Str × TomlValue)) (k : Str) (dflt : TomlValue) :
    (List (Str × TomlValue)) × TomlValue :=
  match tableGet kvs k with
  | some v => (kvs, v)
  | none => (tableInsert kvs k dflt, dflt)

/-- Value::get: only tables carry keys. -/
def TomlValue.getKey : TomlValue → Str → Option TomlValue
  | TomlValue.table kvs, k => tableGet kvs k
  | _, _ => none

/-- Value::as_str. -/
def TomlValue.asStr : TomlValue → Option Str
  | TomlValue.str s => some s
  | _ => none

theorem tableGet_insert_self (kvs : List (Str × TomlValue)) (k : Str) (v : TomlValue) :
    tableGet (tableInsert kvs k v) k = some v := by
  unfold tableInsert
  by_cases h : (kvs.find? (fun e => decide (e.1 = k))).isSome = true
  · rw [if_pos h]
    unfold tableGet
    induction kvs with
    | nil => simp at h
    | cons e l ih =>
      by_cases he : e.1 = k
      · rw [List.map_cons, if_pos he, List.find?_cons_of_pos _ (by simp)]
        rfl
      · rw [List.map_cons, if_neg he, List.find?_cons_of_neg _ (by simp [he])]
        exact ih (by
          rw [List.find?_cons_of_neg _ (by simp [he])] at h
          exact h)
  · rw [if_neg h]
    unfold tableGet
    rw [List.find?_append]
    have hnone : kvs.find? (fun e => decide (e.1 = k)) = none := by
      rcases ho : kvs.find? (fun e => decide (e.1 = k)) with _ | e
      · exact ho
      · rw [ho] at h; simp at h
    rw [hnone]
    simp

theorem tableGet_insert_ne (kvs : List (Str × TomlValue)) (k k2 : Str) (v : TomlValue)
    (hne : k2 ≠ k) : tableGet (tableInsert kvs k v) k2 = tableGet kvs k2 := by
  unfold tableInsert
  by_cases h : (kvs.find? (fun e => decide (e.1 = k))).isSome = true
  · rw [if_pos h]
    unfold tableGet
    have hk2 : k ≠ k2 := fun hx => hne hx.symm
    clear h
    induction kvs with
    | nil => rfl
    | cons e l ih =>
      by_cases he : e.1 = k
      · rw [List.map_cons, if_pos he,
            List.find?_cons_of_neg _ (by simp [hk2]),
            List.find?_cons_of_neg _ (by simp [he, hk2])]
        exact ih
      · rw [List.map_cons, if_neg he]
        by_cases he2 : e.1 = k2
        · rw [List.find?_cons_of_pos _ (by simp [he2]), List.find?_cons_of_pos _ (by simp [he2])]
        · rw [List.find?_cons_of_neg _ (by simp [he2]), List.find?_cons_of_neg _ (by simp [he2])]
          exact ih
  · rw [if_neg h]
    unfold tableGet
    rw [List.find?_append]
    have hkk2 : k ≠ k2 := fun hx => hne hx.symm
    have hlast : List.find? (fun e => decide (e.1 = k2)) [(k, v)] = none := by
      simp [hkk2]
    rw [hlast]
    simp

theorem entryOrInsert_get_ne (kvs : List (Str × TomlValue)) (k k2 : Str) (dflt : TomlValue)
    (hne : k2 ≠ k) : tableGet (entryOrInsert kvs k dflt).1 k2 = tableGet kvs k2 := by
  unfold entryOrInsert
  rcases h : tableGet kvs k with _ | v
  · exact tableGet_insert_ne kvs k k2 dflt hne
  · rfl

/-- The pure read chain of CargoManager::current_url (cargo.rs lines
62-77): follow source.crates-io.replace-with, then resolve
source.<that name>.registry. -/
def cargoCurrentUrlOf (cfg : TomlValue) : Option Str :=
  match (((cfg.getKey (chars "source")).bind
      (fun s => s.getKey (chars "crates-io"))).bind
      (fun c => c.getKey (chars "replace-with"))).bind TomlValue.asStr with
  | some rw =>
    (((cfg.getKey (chars "source")).bind (fun s => s.getKey rw)).bind
      (fun m => m.getKey (chars "registry"))).bind TomlValue.asStr
  | none => none

/-- The table mutation of CargoManager::set_source (cargo.rs lines
110-147): ensure [source], require it to be a table, ensure
[source.crates-io], require a table, set replace-with = "mirror", ensure
[source.mirror], require a table, set registry = url; each as_table_mut
failure is the corresponding MirrorError::Custom hard error. -/
def cargoUpdate (cfg : TomlValue) (url : Str) : Except Str TomlValue :=
  match cfg with
  | TomlValue.table root =>
    match entryOrInsert root (chars "source") (TomlValue.table []) with
    | (root1, TomlValue.table st) =>
      match entryOrInsert st (chars "crates-io") (TomlValue.table []) with
      | (st1, TomlValue.table ct) =>
        match entryOrInsert
            (tableInsert st1 (chars "crates-io")
              (TomlValue.table (tableInsert ct (chars "replace-with")
                (TomlValue.str (chars "mirror")))))
            (chars "mirror") (TomlValue.table []) with
        | (st3, TomlValue.table mt) =>
          Except.ok (TomlValue.table (tableInsert root1 (chars "source")
            (TomlValue.table (tableInsert st3 (chars "mirror")
              (TomlValue.table (tableInsert mt (chars "registry") (TomlValue.str url)))))))
        | _ => Except.error (chars "Invalid [source.mirror] section")
      | _ => Except.error (chars "Invalid [source.crates-io] section")
    | _ => Except.error (chars "Invalid [source] section")
  | _ => Except.error (chars "Invalid config.toml format")

theorem cargoUpdate_reads_back (cfg : TomlValue) (url : Str) (v : TomlValue)
    (h : cargoUpdate cfg url = Except.ok v) : cargoCurrentUrlOf v = some url := by
  cases cfg with
  | str s => unfold cargoUpdate at h; simp at h
  | other => unfold cargoUpdate at h; simp at h
  | table root =>
    unfold cargoUpdate at h
    dsimp only at h
    rcases h1 : entryOrInsert root (chars "source") (TomlValue.table []) with ⟨root1, sv⟩
    rw [h1] at h
    cases sv with
    | str s => simp at h
    | other => simp at h
    | table st =>
      dsimp only at h
      rcases h2 : entryOrInsert st (chars "crates-io") (TomlValue.table []) with ⟨st1, cv⟩
      rw [h2] at h
      cases cv with
      | str s => simp at h
      | other => simp at h
      | table ct =>
        dsimp only at h
        rcases h3 : entryOrInsert
            (tableInsert st1 (chars "crates-io")
              (TomlValue.table (tableInsert ct (chars "replace-with")
                (TomlValue.str (chars "mirror")))))
            (chars "mirror") (TomlValue.table []) with ⟨st3, mv⟩
        rw [h3] at h
        cases mv with
        | str s => simp at h
        | other => simp at h
        | table mt =>
          dsimp only at h
          have hv : v = TomlValue.table (tableInsert root1 (chars "source")
              (TomlValue.table (tableInsert st3 (chars "mirror")
                (TomlValue.table (tableInsert mt (chars "registry")
                  (TomlValue.str url)))))) := (Except.ok.inj h).symm
          subst hv
          have hst3 : (entryOrInsert
              (tableInsert st1 (chars "crates-io")
                (TomlValue.table (tableInsert ct (chars "replace-with")
                  (TomlValue.str (chars "mirror")))))
              (chars "mirror") (TomlValue.table [])).1 = st3 := by rw [h3]
          have hg1 : tableGet (tableInsert root1 (chars "source")
              (TomlValue.table (tableInsert st3 (chars "mirror")
                (TomlValue.table (tableInsert mt (chars "registry")
                  (TomlValue.str url)))))) (chars "source") =
              some (TomlValue.table (tableInsert st3 (chars "mirror")
                (TomlValue.table (tableInsert mt (chars "registry")
                  (TomlValue.str url))))) := tableGet_insert_self _ _ _
          have hg2 : tableGet (tableInsert st3 (chars "mirror")
              (TomlValue.table (tableInsert mt (chars "registry")
                (TomlValue.str url)))) (chars "crates-io") =
              some (TomlValue.table (tableInsert ct (chars "replace-with")
                (TomlValue.str (chars "mirror")))) := by
            rw [tableGet_insert_ne _ _ _ _ (by decide)]
            rw [← hst3, entryOrInsert_get_ne _ _ _ _ (by decide)]
            exact tableGet_insert_self _ _ _
          have hg3 : tableGet (tableInsert ct (chars "replace-with")
              (TomlValue.str (chars "mirror"))) (chars "replace-with") =
              some (TomlValue.str (chars "mirror")) := tableGet_insert_self _ _ _
          have hg4 : tableGet (tableInsert st3 (chars "mirror")
              (TomlValue.table (tableInsert mt (chars "registry")
                (TomlValue.str url)))) (chars "mirror") =
              some (TomlValue.table (tableInsert mt (chars "registry")
                (TomlValue.str url))) := tableGet_insert_self _ _ _
          have hg5 : tableGet (tableInsert mt (chars "registry")
              (TomlValue.str url)) (chars "registry") =
              some (TomlValue.str url) := tableGet_insert_self _ _ _
          unfold cargoCurrentUrlOf
          simp only [TomlValue.getKey, hg1, hg2, hg3, hg4, hg5, Option.bind_some,
            Option.some_bind, TomlValue.asStr]

/-- Parse with the unwrap_or fallback to the empty table used on every
cargo read path (cargo.rs lines 58-59 and 103-104). -/
def parseTomlOrEmpty (parse : Str → Except Str TomlValue) (content : Str) : TomlValue :=
  match parse content with
  | Except.ok v => v
  | Except.error _ => TomlValue.table []

/-- CargoManager::current_url (cargo.rs lines 51-80): Ok(None) when the
file is absent; otherwise read, parse with the empty-table fallback and
follow the replace-with indirection. -/
def cargo_current_url (parse : Str → Except Str TomlValue) (fs : FS) (p : FilePath) :
    Except Str (Option Str) :=
  if fs.fileExists p = false then Except.ok none
  else Except.ok (cargoCurrentUrlOf (parseTomlOrEmpty parse ((fs.lookup p).getD [])))

/-- CargoManager::set_source (cargo.rs lines 82-154): ensure the parent
directory, read the existing file or start from empty content, back up
when that content is non-empty, parse with the empty-table fallback, apply
the table mutation, serialize (a serializer failure is the write-time hard
error, the question mark on toml::to_string_pretty) and write the file. -/
def cargo_set_source (ts : Nat) (parse : Str → Except Str TomlValue)
    (ser : TomlValue → Except Str Str) (fs : FS) (p : FilePath) (url : Str) :
    Except Str FS :=
  match cargoUpdate (parseTomlOrEmpty parse (((fs.mkdir p.dir).lookup p).getD [])) url with
  | Except.error e => Except.error e
  | Except.ok v =>
    match ser v with
    | Except.error e => Except.error e
    | Except.ok s =>
      Except.ok ((if ((fs.mkdir p.dir).lookup p).getD [] ≠ [] then
        backup_file ts (fs.mkdir p.dir) p else fs.mkdir p.dir).write p s)

/-- C7: whenever the cargo adapter's applySource(url) succeeds,
currentSource() on the resulting filesystem returns exactly url:
set_source writes source.crates-io.replace-with = "mirror" and
source.mirror.registry = url, and current_url resolves that indirection
back to url. The TOML codec oracles are assumed coherent on the single
value written: parsing the serialized updated table returns that table. -/
theorem cargo_set_source_then_current_url (ts : Nat)
    (parse : Str → Except Str TomlValue) (ser : TomlValue → Except Str Str)
    (fs : FS) (p : FilePath) (url : Str) (fs2 : FS)
    (hok : cargo_set_source ts parse ser fs p url = Except.ok fs2)
    (hrt : ∀ v s,
      cargoUpdate (parseTomlOrEmpty parse (((fs.mkdir p.dir).lookup p).getD [])) url =
        Except.ok v →
      ser v = Except.ok s → parse s = Except.ok v) :
    cargo_current_url parse fs2 p = Except.ok (some url) := by
  unfold cargo_set_source at hok
  rcases hu : cargoUpdate (parseTomlOrEmpty parse (((fs.mkdir p.dir).lookup p).getD [])) url
    with e | v
  · rw [hu] at hok; simp at hok
  · rw [hu] at hok
    dsimp only at hok
    rcases hs : ser v with e | s
    · rw [hs] at hok; simp at hok
    · rw [hs] at hok
      dsimp only at hok
      have hfs2 : fs2 = (if ((fs.mkdir p.dir).lookup p).getD [] ≠ [] then
          backup_file ts (fs.mkdir p.dir) p else fs.mkdir p.dir).write p s :=
        (Except.ok.inj hok).symm
      subst hfs2
      have hparse : parse s = Except.ok v := hrt v s hu hs
      have hlook : ((if ((fs.mkdir p.dir).lookup p).getD [] ≠ [] then
          backup_file ts (fs.mkdir p.dir) p else fs.mkdir p.dir).write p s).lookup p =
          some s := FS.lookup_write_self _ _ _
      have hex : ((if ((fs.mkdir p.dir).lookup p).getD [] ≠ [] then
          backup_file ts (fs.mkdir p.dir) p else fs.mkdir p.dir).write p s).fileExists p =
          true := by
        unfold FS.fileExists
        rw [hlook]
        rfl
      unfold cargo_current_url
      rw [if_neg (by rw [hex]; simp)]
      rw [hlook]
      simp only [Option.getD_some]
      unfold parseTomlOrEmpty
      rw [hparse]
      exact congrArg Except.ok (cargoUpdate_reads_back _ url v hu)

/-- Concrete mirror URL for the cargo witness. -/
def cargoW_url : Str := chars "https://mirror.test/index"

/-- The updated TOML table cargoUpdate produces from the empty table. -/
def cargoW_v : TomlValue :=
  TomlValue.table [(chars "source", TomlValue.table
    [(chars "crates-io",
      TomlValue.table [(chars "replace-with", TomlValue.str (chars "mirror"))]),
     (chars "mirror",
      TomlValue.table [(chars "registry", TomlValue.str cargoW_url)])])]

/-- Concrete parser oracle for the cargo witness: parses back exactly the
one serialized artefact, fails on everything else. -/
def cargoW_parse : Str → Except Str TomlValue := fun s =>
  if s = chars "SERIALIZED" then Except.ok cargoW_v
  else Except.error (chars "TOML parse error")

/-- Concrete serializer oracle for the cargo witness. -/
def cargoW_ser : TomlValue → Except Str Str := fun _ => Except.ok (chars "SERIALIZED")

/-- Empty starting filesystem for the cargo witness. -/
def cargoW_fs : FS := FS.mk [chars "/home/.cargo"] []

/-- The cargo config path for the witness. -/
def cargoW_p : FilePath := FilePath.mk (chars "/home/.cargo") (chars "config.toml")

/-- Witness for C7 at a fresh config: set_source succeeds and current_url
returns exactly the applied URL. -/
theorem cargo_set_source_then_current_url_witness :
    cargo_current_url cargoW_parse
      (FS.mk [chars "/home/.cargo"] [(cargoW_p, chars "SERIALIZED")]) cargoW_p =
      Except.ok (some cargoW_url) := by
  apply cargo_set_source_then_current_url 3 cargoW_parse cargoW_ser cargoW_fs cargoW_p cargoW_url
  · rfl
  · intro v s hv hs
    have hcomp : cargoUpdate (parseTomlOrEmpty cargoW_parse
        (((cargoW_fs.mkdir cargoW_p.dir).lookup cargoW_p).getD [])) cargoW_url =
        Except.ok cargoW_v := by rfl
    rw [hcomp] at hv
    have hv2 : cargoW_v = v := Except.ok.inj hv
    subst hv2
    have hs2 : chars "SERIALIZED" = s := Except.ok.inj hs
    subst hs2
    rfl

/-! ## JSON model and the docker adapter (src/src/sources/docker.rs) -/

/-- JSON value tree as the docker adapter sees it. -/
inductive JsonValue where
  | str : Str → JsonValue
  | arr : List JsonValue → JsonValue
  | obj : List (Str × JsonValue) → JsonValue
  | other : JsonValue

/-- serde_json object insert through index assignment: replaces the value
under an existing key in place, appends a fresh binding otherwise. -/
def jsonInsert (kvs : List (Str × JsonValue)) (k : Str) (v : JsonValue) :
    List (Str × JsonValue) :=
  if (kvs.find? (fun e => decide (e.1 = k))).isSome then
    kvs.map (fun e => if e.1 = k then (k, v) else e)
  else kvs ++ [(k, v)]

/-- Value::get on a JSON value: only objects carry keys. -/
def JsonValue.getKey : JsonValue → Str → Option JsonValue
  | JsonValue.obj kvs, k => (kvs.find? (fun e => decide (e.1 = k))).map (fun e => e.2)
  | _, _ => none

/-- Parse with the unwrap_or fallback to the empty object used on the
docker set_source read path (docker.rs line 77). -/
def parseJsonOrEmpty (parse : Str → Except Str JsonValue) (content : Str) : JsonValue :=
  match parse content with
  | Except.ok v => v
  | Except.error _ => JsonValue.obj []

/-- DockerManager::current_url (docker.rs lines 48-67): Ok(None) when the
file is absent; otherwise read and parse — the question mark on
serde_json::from_str at line 57 propagates a parse failure — then return
the first element of the registry-mirrors array when it is a string. -/
def docker_current_url (parse : Str → Except Str JsonValue) (fs : FS) (p : FilePath) :
    Except Str (Option Str) :=
  if fs.fileExists p = false then Except.ok none
  else
    match parse ((fs.lookup p).getD []) with
    | Except.error e => Except.error e
    | Except.ok v =>
      match v.getKey (chars "registry-mirrors") with
      | some (JsonValue.arr ms) =>
        match ms.head? with
        | some (JsonValue.str first) => Except.ok (some first)
        | _ => Except.ok none
      | _ => Except.ok none

/-- DockerManager::set_source (docker.rs lines 69-105): read the existing
config falling back to the empty object on a parse failure (creating the
parent directory only when the file is absent), call backup_file
unconditionally, set registry-mirrors to the one-element array [url],
serialize (a serializer failure is the write-time hard error) and write.
A parsed non-object value makes the Rust index assignment
config["registry-mirrors"] panic; the model returns a distinguished error
for that case, which no claim reaches. -/
def docker_set_source (ts : Nat) (parse : Str → Except Str JsonValue)
    (ser : JsonValue → Except Str Str) (fs : FS) (p : FilePath) (url : Str) :
    Except Str FS :=
  match (if fs.fileExists p then parseJsonOrEmpty parse ((fs.lookup p).getD [])
    else JsonValue.obj []) with
  | JsonValue.obj kvs =>
    match ser (JsonValue.obj (jsonInsert kvs (chars "registry-mirrors")
        (JsonValue.arr [JsonValue.str url]))) with
    | Except.error e => Except.error e
    | Except.ok s =>
      Except.ok ((backup_file ts (if fs.fileExists p then fs else fs.mkdir p.dir) p).write p s)
  | _ => Except.error (chars "panic: cannot index into non-object daemon.json")

theorem FS.lookup_mkdir (fs : FS) (d : Str) (q : FilePath) :
    (fs.mkdir d).lookup q = fs.lookup q := by
  unfold FS.mkdir
  by_cases h : fs.dirExists d = true
  · rw [if_pos h]
  · rw [if_neg h]
    rfl

/-- Concrete always-failing JSON parser, modelling serde_json on malformed
input. -/
def parseJsonFailW : Str → Except Str JsonValue :=
  fun _ => Except.error (chars "expected value")

/-- Concrete docker filesystem whose daemon.json holds malformed content. -/
def fsDockerW : FS :=
  FS.mk [chars "/etc/docker"]
    [(FilePath.mk (chars "/etc/docker") (chars "daemon.json"), chars "not json")]

/-- The docker config path. -/
def pDockerW : FilePath := FilePath.mk (chars "/etc/docker") (chars "daemon.json")

/-- Counterexample to C4 as stated: docker current_url does not treat
unparseable content as an empty structure — serde_json::from_str(&content)?
(docker.rs line 57) propagates the parse error to the caller instead of
answering Ok(None) as reading an empty structure would. -/
theorem docker_current_url_malformed_cex :
    docker_current_url parseJsonFailW fsDockerW pDockerW =
      Except.error (chars "expected value") ∧
    docker_current_url parseJsonFailW fsDockerW pDockerW ≠
      (Except.ok none : Except Str (Option Str)) := by
  refine ⟨rfl, by decide⟩

/-- C4 amended: for the structured-config adapters, malformed content in an
existing config file is tolerated on the cargo read path and on the
read-before-write of both adapters' applySource — cargo currentSource
answers Ok(None) as for an empty structure, and each set_source computes
the same result as with a parser that returns the empty table/object —
while docker currentSource propagates the parse error; a write-time
failure to produce valid structured output (the serializer failing on the
updated structure) is a hard error of applySource for both adapters. -/
theorem structured_read_tolerant_write_strict
    (ts : Nat) (fs : FS) (p : FilePath) (content e url : Str)
    (parseT parseT2 : Str → Except Str TomlValue) (serT : TomlValue → Except Str Str)
    (parseJ parseJ2 : Str → Except Str JsonValue) (serJ : JsonValue → Except Str Str)
    (hcontent : fs.lookup p = some content) :
    (parseT content = Except.error e →
      cargo_current_url parseT fs p = Except.ok none) ∧
    (parseT content = Except.error e →
      parseT2 content = Except.ok (TomlValue.table []) →
      cargo_set_source ts parseT serT fs p url = cargo_set_source ts parseT2 serT fs p url) ∧
    (parseJ content = Except.error e →
      docker_current_url parseJ fs p = Except.error e) ∧
    (parseJ content = Except.error e →
      parseJ2 content = Except.ok (JsonValue.obj []) →
      docker_set_source ts parseJ serJ fs p url = docker_set_source ts parseJ2 serJ fs p url) ∧
    (∀ v, cargoUpdate (parseTomlOrEmpty parseT content) url = Except.ok v →
      serT v = Except.error e →
      cargo_set_source ts parseT serT fs p url = Except.error e) ∧
    (∀ kvs, parseJsonOrEmpty parseJ content = JsonValue.obj kvs →
      serJ (JsonValue.obj (jsonInsert kvs (chars "registry-mirrors")
        (JsonValue.arr [JsonValue.str url]))) = Except.error e →
      docker_set_source ts parseJ serJ fs p url = Except.error e) := by
  have hex : fs.fileExists p = true := by
    unfold FS.fileExists
    rw [hcontent]
    rfl
  have hlookmk : (fs.mkdir p.dir).lookup p = some content := by
    rw [FS.lookup_mkdir]
    exact hcontent
  refine ⟨?_, ?_, ?_, ?_, ?_, ?_⟩
  · intro hpe
    unfold cargo_current_url
    rw [if_neg (by rw [hex]; simp), hcontent]
    simp only [Option.getD_some]
    unfold parseTomlOrEmpty
    rw [hpe]
    rfl
  · intro hpe hp2
    have e1 : parseTomlOrEmpty parseT content = TomlValue.table [] := by
      unfold parseTomlOrEmpty
      rw [hpe]
    have e2 : parseTomlOrEmpty parseT2 content = TomlValue.table [] := by
      unfold parseTomlOrEmpty
      rw [hp2]
    unfold cargo_set_source
    rw [hlookmk]
    simp only [Option.getD_some]
    rw [e1, e2]
  · intro hpe
    unfold docker_current_url
    rw [if_neg (by rw [hex]; simp), hcontent]
    simp only [Option.getD_some]
    rw [hpe]
  · intro hpe hp2
    have e1 : parseJsonOrEmpty parseJ content = JsonValue.obj [] := by
      unfold parseJsonOrEmpty
      rw [hpe]
    have e2 : parseJsonOrEmpty parseJ2 content = JsonValue.obj [] := by
      unfold parseJsonOrEmpty
      rw [hp2]
    unfold docker_set_source
    rw [if_pos hex, if_pos hex, if_pos hex, hcontent]
    simp only [Option.getD_some]
    rw [e1, e2]
  · intro v hupd hser
    unfold cargo_set_source
    rw [hlookmk]
    simp only [Option.getD_some]
    rw [hupd]
    dsimp only
    rw [hser]
  · intro kvs hobj hser
    unfold docker_set_source
    rw [if_pos hex, hcontent]
    simp only [Option.getD_some]
    rw [hobj]
    dsimp only
    rw [hser]

/-- Always-failing TOML parser oracle. -/
def parseTomlFailW : Str → Except Str TomlValue :=
  fun _ => Except.error (chars "expected value")

/-- TOML parser oracle answering the empty table. -/
def parseTomlEmptyW : Str → Except Str TomlValue :=
  fun _ => Except.ok (TomlValue.table [])

/-- Always-failing TOML serializer oracle. -/
def serTomlFailW : TomlValue → Except Str Str :=
  fun _ => Except.error (chars "expected value")

/-- JSON parser oracle answering the empty object. -/
def parseJsonEmptyW : Str → Except Str JsonValue :=
  fun _ => Except.ok (JsonValue.obj [])

/-- Always-failing JSON serializer oracle. -/
def serJsonFailW : JsonValue → Except Str Str :=
  fun _ => Except.error (chars "expected value")

/-- Witness for the amended C4 at the malformed daemon.json filesystem:
read-path tolerance of cargo current_url and of both set_source read
paths, the docker current_url error propagation, and the two write-time
hard errors. -/
theorem structured_read_tolerant_write_strict_witness :
    cargo_current_url parseTomlFailW fsDockerW pDockerW = Except.ok none ∧
    cargo_set_source 3 parseTomlFailW serTomlFailW fsDockerW pDockerW cargoW_url =
      cargo_set_source 3 parseTomlEmptyW serTomlFailW fsDockerW pDockerW cargoW_url ∧
    docker_current_url parseJsonFailW fsDockerW pDockerW =
      Except.error (chars "expected value") ∧
    docker_set_source 3 parseJsonFailW serJsonFailW fsDockerW pDockerW cargoW_url =
      docker_set_source 3 parseJsonEmptyW serJsonFailW fsDockerW pDockerW cargoW_url ∧
    cargo_set_source 3 parseTomlFailW serTomlFailW fsDockerW pDockerW cargoW_url =
      Except.error (chars "expected value") ∧
    docker_set_source 3 parseJsonFailW serJsonFailW fsDockerW pDockerW cargoW_url =
      Except.error (chars "expected value") := by
  have h := structured_read_tolerant_write_strict 3 fsDockerW pDockerW
    (chars "not json") (chars "expected value") cargoW_url
    parseTomlFailW parseTomlEmptyW serTomlFailW parseJsonFailW parseJsonEmptyW serJsonFailW rfl
  refine ⟨h.1 rfl, h.2.1 rfl rfl, h.2.2.1 rfl, h.2.2.2.1 rfl rfl, ?_, ?_⟩
  · exact h.2.2.2.2.1 cargoW_v rfl rfl
  · exact h.2.2.2.2.2 [] rfl rfl

/-! ## pip and npm adapters (src/src/sources/pip.rs, npm.rs) -/

/-- Drop a known prefix, or answer none. -/
def dropPfx (pat s : Str) : Option Str :=
  if pat.isPrefixOf s then some (s.drop pat.length) else none

/-- Line match for the anchored pip regex ^index-url\s*=\s*.*$
(pip.rs lines 74 and 106); the .*$ tail always matches the rest of a line. -/
def isIndexUrlLine (line : Str) : Bool :=
  match dropPfx (chars "index-url") line with
  | some rest =>
    match rest.dropWhile (fun c => c.isWhitespace) with
    | '=' :: _ => true
    | _ => false
  | none => false

/-- Line match for the anchored npm regex ^registry\s*=\s*.*$
(npm.rs lines 61 and 92). -/
def isRegistryLine (line : Str) : Bool :=
  match dropPfx (chars "registry") line with
  | some rest =>
    match rest.dropWhile (fun c => c.isWhitespace) with
    | '=' :: _ => true
    | _ => false
  | none => false

/-- Regex::replace with a line-anchored pattern replaces only the first
matching line. -/
def replaceFirstLine (pred : Str → Bool) (newLine : Str) : List Str → List Str
  | [] => []
  | l :: ls => if pred l then newLine :: ls else l :: replaceFirstLine pred newLine ls

/-- Content rewriting of PipManager::set_source (pip.rs lines 104-121):
replace the first index-url line in place; else inject after every
occurrence of the literal "[global]" (str::replace replaces all); else
append a fresh [global] section. -/
def pipRewrite (content url : Str) : Str :=
  let newLine := chars "index-url = " ++ url
  if (splitLines content).any isIndexUrlLine then
    joinLines (replaceFirstLine isIndexUrlLine newLine (splitLines content))
  else if decide ((chars "[global]") <:+: content) then
    replaceAll (chars "[global]") (chars "[global]" ++ chars "\n" ++ newLine) content
  else
    content ++ (if content = [] then [] else chars "\n") ++
      chars "[global]" ++ chars "\n" ++ newLine ++ chars "\n"

/-- PipManager::set_source (pip.rs lines 84-126): ensure the parent
directory, read the existing content or start empty, back up only when the
existing content is non-empty, rewrite, write. -/
def pip_set_source (ts : Nat) (fs : FS) (p : FilePath) (url : Str) : FS :=
  ((if ((fs.mkdir p.dir).lookup p).getD [] ≠ [] then
      backup_file ts (fs.mkdir p.dir) p
    else fs.mkdir p.dir).write p
    (pipRewrite (((fs.mkdir p.dir).lookup p).getD []) url))

/-- Content rewriting of NpmManager::set_source (npm.rs lines 90-103):
replace the first registry line in place, else append a registry line
(with a separating newline unless the content is empty or already
newline-terminated). -/
def npmRewrite (content url : Str) : Str :=
  let newLine := chars "registry=" ++ url
  if (splitLines content).any isRegistryLine then
    joinLines (replaceFirstLine isRegistryLine newLine (splitLines content))
  else
    content ++
      (if content = [] ∨ content.getLast? = some '\n' then [] else chars "\n") ++
      newLine ++ chars "\n"

/-- NpmManager::set_source (npm.rs lines 70-108). -/
def npm_set_source (ts : Nat) (fs : FS) (p : FilePath) (url : Str) : FS :=
  ((if ((fs.mkdir p.dir).lookup p).getD [] ≠ [] then
      backup_file ts (fs.mkdir p.dir) p
    else fs.mkdir p.dir).write p
    (npmRewrite (((fs.mkdir p.dir).lookup p).getD []) url))

/-! ## apt adapter (src/src/sources/apt.rs) -/

/-- Target URL normalization of AptManager::set_source (apt.rs lines
115-119): ensure a trailing slash. -/
def aptTargetUrl (murl : Str) : Str :=
  if murl.getLast? = some '/' then murl else murl ++ chars "/"

/-- Default domains per distro (apt.rs lines 133-137). -/
def aptDefaultDomains (distro : Str) : List Str :=
  if distro = chars "ubuntu" then
    [chars "archive.ubuntu.com/ubuntu/", chars "security.ubuntu.com/ubuntu/"]
  else
    [chars "deb.debian.org/debian/", chars "security.debian.org/debian/"]

/-- The fallback rewrite of AptManager::set_source when no current URL was
detected (apt.rs lines 139-145): replace the http and https form of each
default domain. -/
def aptDefaultRewrite (distro target content : Str) : Str :=
  (aptDefaultDomains distro).foldl
    (fun acc d =>
      replaceAll (chars "https://" ++ d) target
        (replaceAll (chars "http://" ++ d) target acc))
    content

/-- The URL token of the apt regex: https?://\S+ followed by mandatory
whitespace — within a line the whitespace must follow the maximal non-space
run, and at the end of a line it is the terminating newline of the
multi-line content, absent only on the final line. -/
def parseAptUrl (terminated : Bool) (r : Str) : Option Str :=
  let run := r.takeWhile (fun c => ¬ c.isWhitespace)
  let okScheme := ((chars "http://").isPrefixOf run && decide (7 < run.length)) ||
    ((chars "https://").isPrefixOf run && decide (8 < run.length))
  if okScheme && (!(r.drop run.length).isEmpty || terminated) then some run else none

/-- The optional bracketed options group (?:\[.*?\]\s+)? of the apt regex:
the lazy .*? with backtracking tries each closing bracket from the left,
requiring whitespace and then the URL after it. -/
def aptAfterBracketStep (terminated : Bool) (r : Str) : Option Str :=
  match r with
  | c2 :: _ =>
    if c2.isWhitespace then
      parseAptUrl terminated (r.dropWhile (fun x => x.isWhitespace))
    else none
  | [] => none

def aptAfterBracket (terminated : Bool) : Str → Option Str
  | [] => none
  | c :: r =>
    if c = ']' then
      match aptAfterBracketStep terminated r with
      | some u => some u
      | none => aptAfterBracket terminated r
    else aptAfterBracket terminated r

/-- One line of the apt current_url regex
(?m)^deb\s+(?:\[.*?\]\s+)?(?P<url>https?://\S+)\s+ (apt.rs line 92). -/
def aptLineUrl (terminated : Bool) (line : Str) : Option Str :=
  if (chars "deb").isPrefixOf line then
    match line.drop 3 with
    | [] => none
    | c :: r0 =>
      if c.isWhitespace then
        match (c :: r0).dropWhile (fun x => x.isWhitespace) with
        | [] => parseAptUrl terminated []
        | c1 :: rest =>
          if c1 = '[' then aptAfterBracket terminated rest
          else parseAptUrl terminated (c1 :: rest)
      else none
  else none

/-- First match of the multi-line regex over the lines of the content; all
lines except the final one are newline-terminated. -/
def aptScanLines : List Str → Option Str
  | [] => none
  | [l] => aptLineUrl false l
  | l :: l2 :: ls =>
    match aptLineUrl true l with
    | some u => some u
    | none => aptScanLines (l2 :: ls)

/-- AptManager::current_url over raw content (apt.rs lines 90-98). -/
def aptCurrentUrlOf (content : Str) : Option Str := aptScanLines (splitLines content)

/-- AptManager::current_url (apt.rs lines 82-99). -/
def apt_current_url (fs : FS) (p : FilePath) : Except Str (Option Str) :=
  if fs.fileExists p = false then Except.ok none
  else Except.ok (aptCurrentUrlOf ((fs.lookup p).getD []))

/-- AptManager::set_source (apt.rs lines 101-150): a missing sources file
is a hard error; otherwise read, back up unconditionally, and write the
content with either every occurrence of the detected current URL replaced
by the slash-normalized mirror URL, or — when no current URL was detected —
the default-domain fallback replacements applied. -/
def apt_set_source (ts : Nat) (distro : Str) (fs : FS) (p : FilePath) (murl : Str) :
    Except Str FS :=
  if fs.fileExists p = false then Except.error (chars "Config file not found")
  else
    match aptCurrentUrlOf ((fs.lookup p).getD []) with
    | some cur =>
      Except.ok ((backup_file ts fs p).write p
        (replaceAll cur (aptTargetUrl murl) ((fs.lookup p).getD [])))
    | none =>
      Except.ok ((backup_file ts fs p).write p
        (aptDefaultRewrite distro (aptTargetUrl murl) ((fs.lookup p).getD [])))

/-! ## C3: snapshot-creation policy of the file-backed adapters -/

/-- The backup predicate for path p: same directory, name prefixed by
"<file-name>.bak.". -/
def bakPred (p : FilePath) (fp : FilePath) : Bool :=
  decide (fp.dir = p.dir) && (p.name ++ chars ".bak.").isPrefixOf fp.name

/-- Name/content view of the backups of p. -/
def FS.bakEntries (fs : FS) (p : FilePath) : List (Str × Str) :=
  (fs.files.filter (fun e => bakPred p e.1)).map (fun e => (e.1.name, e.2))

theorem bakPred_self (p : FilePath) : bakPred p p = false := by
  unfold bakPred
  have hpre : (p.name ++ chars ".bak.").isPrefixOf p.name = false := by
    cases hb : (p.name ++ chars ".bak.").isPrefixOf p.name
    · rfl
    · have hlen := (List.isPrefixOf_iff_prefix.mp hb).length_le
      simp [chars] at hlen
  simp [hpre]

theorem bakPred_bakName (p : FilePath) (ts : Nat) :
    bakPred p (FilePath.mk p.dir (bakName p.name ts)) = true := by
  unfold bakPred bakName
  have h1 : (p.name ++ chars ".bak.").isPrefixOf
      (p.name ++ chars ".bak." ++ (Nat.repr ts).data) = true :=
    List.isPrefixOf_iff_prefix.mpr (List.prefix_append _ _)
  simp [h1]

theorem filter_bak_update (l : List (FilePath × Str)) (q : FilePath) (c : Str)
    (pred : FilePath → Bool) (hq : pred q = false) :
    (l.map (fun e => if e.1 = q then (q, c) else e)).filter (fun e => pred e.1) =
      l.filter (fun e => pred e.1) := by
  induction l with
  | nil => rfl
  | cons a l ih =>
    by_cases ha : a.1 = q
    · rw [List.map_cons, if_pos ha,
          List.filter_cons_of_neg (by simp [hq]),
          List.filter_cons_of_neg (by rw [ha]; simp [hq])]
      exact ih
    · rw [List.map_cons, if_neg ha]
      by_cases hp : pred a.1 = true
      · rw [List.filter_cons_of_pos (by simpa using hp),
            List.filter_cons_of_pos (by simpa using hp), ih]
      · rw [List.filter_cons_of_neg (by simp [hp]),
            List.filter_cons_of_neg (by simp [hp])]
        exact ih

theorem FS.bakEntries_write_nomatch (fs : FS) (p q : FilePath) (c : Str)
    (h : bakPred p q = false) :
    (fs.write q c).bakEntries p = fs.bakEntries p := by
  unfold FS.write
  by_cases hex : fs.fileExists q = true
  · rw [if_pos hex]
    unfold FS.bakEntries
    rw [FS.files_mk, filter_bak_update fs.files q c (bakPred p) h]
  · rw [if_neg hex]
    unfold FS.bakEntries
    rw [FS.files_mk, List.filter_append]
    have hnil : List.filter (fun e => bakPred p e.1) [(q, c)] = [] := by
      simp [h]
    rw [hnil, List.append_nil]

theorem FS.bakEntries_write_new (fs : FS) (p q : FilePath) (c : Str)
    (h : bakPred p q = true) (hex : fs.fileExists q = false) :
    (fs.write q c).bakEntries p = fs.bakEntries p ++ [(q.name, c)] := by
  unfold FS.write
  rw [if_neg (by rw [hex]; simp)]
  unfold FS.bakEntries
  rw [FS.files_mk, List.filter_append, List.map_append]
  congr 1
  simp [h]

theorem FS.fileExists_mkdir (fs : FS) (d : Str) (q : FilePath) :
    (fs.mkdir d).fileExists q = fs.fileExists q := by
  unfold FS.fileExists
  rw [FS.lookup_mkdir]

theorem FS.bakEntries_mkdir (fs : FS) (d : Str) (p : FilePath) :
    (fs.mkdir d).bakEntries p = fs.bakEntries p := by
  unfold FS.mkdir
  by_cases h : fs.dirExists d = true
  · rw [if_pos h]
  · rw [if_neg h]
    rfl

theorem bakEntries_backup_then_write (ts : Nat) (fs : FS) (p : FilePath) (s : Str) :
    (fs.lookup p = none →
      ((backup_file ts fs p).write p s).bakEntries p = fs.bakEntries p) ∧
    (∀ c, fs.lookup p = some c →
      fs.fileExists (FilePath.mk p.dir (bakName p.name ts)) = false →
      ((backup_file ts fs p).write p s).bakEntries p =
        fs.bakEntries p ++ [(bakName p.name ts, c)]) := by
  constructor
  · intro h
    unfold backup_file
    rw [h]
    exact FS.bakEntries_write_nomatch fs p p s (bakPred_self p)
  · intro c hc hfresh
    unfold backup_file
    rw [hc]
    dsimp only
    rw [FS.bakEntries_write_nomatch _ p p s (bakPred_self p)]
    exact FS.bakEntries_write_new fs p (FilePath.mk p.dir (bakName p.name ts)) c
      (bakPred_bakName p ts) hfresh

/-- JSON serializer oracle answering a fixed artefact. -/
def serJsonOkW : JsonValue → Except Str Str := fun _ => Except.ok (chars "S")

/-- Docker filesystem whose daemon.json pre-exists with empty content. -/
def fsDockerEmptyW : FS := FS.mk [chars "/etc/docker"] [(pDockerW, [])]

/-- The filesystem docker set_source produces from `fsDockerEmptyW`. -/
def fsDockerEmptyAfterW : FS :=
  FS.mk [chars "/etc/docker"]
    [(pDockerW, chars "S"),
     (FilePath.mk (chars "/etc/docker") (chars "daemon.json.bak.5"), [])]

/-- Counterexample to C3 as stated: the docker adapter calls backup_file
unconditionally (docker.rs line 90), so a successful set_source on a
pre-existing but empty daemon.json does create a backup snapshot
(daemon.json.bak.5), where the claim requires that no snapshot be created
for a brand-new empty file. -/
theorem docker_set_source_empty_backup_cex :
    fsDockerEmptyW.lookup pDockerW = some [] ∧
    docker_set_source 5 parseJsonFailW serJsonOkW fsDockerEmptyW pDockerW
      (chars "https://m.test") = Except.ok fsDockerEmptyAfterW ∧
    fsDockerEmptyAfterW.fileExists
      (FilePath.mk (chars "/etc/docker") (chars "daemon.json.bak.5")) = true := by
  refine ⟨rfl, by decide, rfl⟩

/-- C3 amended: pip, npm and cargo guard the backup with a non-empty-content
check, so exactly one snapshot (the sibling "<name>.bak.<ts>" carrying the
old content) is created per successful set_source call iff the target file
pre-existed with non-empty content, and none when the file was missing or
empty; the docker and apt adapters call backup_file unconditionally, so
they create the snapshot whenever the target pre-existed — even with empty
content — docker creates none when the file was missing, and apt fails on
a missing file. All statements assume the backup name for the observed
timestamp is fresh (a second-level timestamp collision would instead
overwrite the earlier snapshot). -/
theorem set_source_backup_policy
    (ts : Nat) (fs : FS) (p : FilePath) (url distro : Str)
    (parseT : Str → Except Str TomlValue) (serT : TomlValue → Except Str Str)
    (parseJ : Str → Except Str JsonValue) (serJ : JsonValue → Except Str Str) :
    ((fs.lookup p = none ∨ fs.lookup p = some []) →
      (pip_set_source ts fs p url).bakEntries p = fs.bakEntries p ∧
      (npm_set_source ts fs p url).bakEntries p = fs.bakEntries p) ∧
    (∀ c, fs.lookup p = some c → c ≠ [] →
      fs.fileExists (FilePath.mk p.dir (bakName p.name ts)) = false →
      (pip_set_source ts fs p url).bakEntries p =
        fs.bakEntries p ++ [(bakName p.name ts, c)] ∧
      (npm_set_source ts fs p url).bakEntries p =
        fs.bakEntries p ++ [(bakName p.name ts, c)]) ∧
    (∀ fs2, cargo_set_source ts parseT serT fs p url = Except.ok fs2 →
      ((fs.lookup p = none ∨ fs.lookup p = some []) →
        fs2.bakEntries p = fs.bakEntries p) ∧
      (∀ c, fs.lookup p = some c → c ≠ [] →
        fs.fileExists (FilePath.mk p.dir (bakName p.name ts)) = false →
        fs2.bakEntries p = fs.bakEntries p ++ [(bakName p.name ts, c)])) ∧
    (∀ fs2, docker_set_source ts parseJ serJ fs p url = Except.ok fs2 →
      (fs.lookup p = none → fs2.bakEntries p = fs.bakEntries p) ∧
      (∀ c, fs.lookup p = some c →
        fs.fileExists (FilePath.mk p.dir (bakName p.name ts)) = false →
        fs2.bakEntries p = fs.bakEntries p ++ [(bakName p.name ts, c)])) ∧
    (fs.fileExists p = false →
      apt_set_source ts distro fs p url = Except.error (chars "Config file not found")) ∧
    (∀ fs2 c, apt_set_source ts distro fs p url = Except.ok fs2 →
      fs.lookup p = some c →
      fs.fileExists (FilePath.mk p.dir (bakName p.name ts)) = false →
      fs2.bakEntries p = fs.bakEntries p ++ [(bakName p.name ts, c)]) := by
  refine ⟨?_, ?_, ?_, ?_, ?_, ?_⟩
  · intro h
    have hcond : ¬ (((fs.mkdir p.dir).lookup p).getD [] ≠ []) := by
      rcases h with h | h <;> rw [FS.lookup_mkdir, h] <;> simp
    constructor
    · unfold pip_set_source
      rw [if_neg hcond, FS.bakEntries_write_nomatch _ p p _ (bakPred_self p),
          FS.bakEntries_mkdir]
    · unfold npm_set_source
      rw [if_neg hcond, FS.bakEntries_write_nomatch _ p p _ (bakPred_self p),
          FS.bakEntries_mkdir]
  · intro c hc hcne hfresh
    have hcond : ((fs.mkdir p.dir).lookup p).getD [] ≠ [] := by
      rw [FS.lookup_mkdir, hc]
      simpa using hcne
    have hlm : (fs.mkdir p.dir).lookup p = some c := by
      rw [FS.lookup_mkdir]
      exact hc
    have hfm : (fs.mkdir p.dir).fileExists (FilePath.mk p.dir (bakName p.name ts)) = false := by
      rw [FS.fileExists_mkdir]
      exact hfresh
    constructor
    · unfold pip_set_source
      rw [if_pos hcond,
          (bakEntries_backup_then_write ts (fs.mkdir p.dir) p _).2 c hlm hfm,
          FS.bakEntries_mkdir]
    · unfold npm_set_source
      rw [if_pos hcond,
          (bakEntries_backup_then_write ts (fs.mkdir p.dir) p _).2 c hlm hfm,
          FS.bakEntries_mkdir]
  · intro fs2 hok
    unfold cargo_set_source at hok
    rcases hu : cargoUpdate (parseTomlOrEmpty parseT (((fs.mkdir p.dir).lookup p).getD [])) url
      with e | v
    · rw [hu] at hok
      simp at hok
    · rw [hu] at hok
      dsimp only at hok
      rcases hs : serT v with e | s
      · rw [hs] at hok
        simp at hok
      · rw [hs] at hok
        dsimp only at hok
        have hfs2 : fs2 = (if ((fs.mkdir p.dir).lookup p).getD [] ≠ [] then
            backup_file ts (fs.mkdir p.dir) p else fs.mkdir p.dir).write p s :=
          (Except.ok.inj hok).symm
        subst hfs2
        constructor
        · intro h
          have hcond : ¬ (((fs.mkdir p.dir).lookup p).getD [] ≠ []) := by
            rcases h with h | h <;> rw [FS.lookup_mkdir, h] <;> simp
          rw [if_neg hcond, FS.bakEntries_write_nomatch _ p p _ (bakPred_self p),
              FS.bakEntries_mkdir]
        · intro c hc hcne hfresh
          have hcond : ((fs.mkdir p.dir).lookup p).getD [] ≠ [] := by
            rw [FS.lookup_mkdir, hc]
            simpa using hcne
          have hlm : (fs.mkdir p.dir).lookup p = some c := by
            rw [FS.lookup_mkdir]
            exact hc
          have hfm : (fs.mkdir p.dir).fileExists
              (FilePath.mk p.dir (bakName p.name ts)) = false := by
            rw [FS.fileExists_mkdir]
            exact hfresh
          rw [if_pos hcond,
              (bakEntries_backup_then_write ts (fs.mkdir p.dir) p _).2 c hlm hfm,
              FS.bakEntries_mkdir]
  · intro fs2 hok
    unfold docker_set_source at hok
    by_cases hex : fs.fileExists p = true
    · rw [if_pos hex, if_pos hex] at hok
      rcases hcfg : parseJsonOrEmpty parseJ ((fs.lookup p).getD []) with s0 | ms | kvs | _
      · rw [hcfg] at hok
        dsimp only at hok
        simp at hok
      · rw [hcfg] at hok
        dsimp only at hok
        simp at hok
      · rw [hcfg] at hok
        dsimp only at hok
        rcases hser : serJ (JsonValue.obj (jsonInsert kvs (chars "registry-mirrors")
            (JsonValue.arr [JsonValue.str url]))) with e | s
        · rw [hser] at hok
          simp at hok
        · rw [hser] at hok
          dsimp only at hok
          have hfs2 : fs2 = (backup_file ts fs p).write p s := (Except.ok.inj hok).symm
          subst hfs2
          constructor
          · intro h
            have hh : fs.fileExists p = false := by
              unfold FS.fileExists
              rw [h]
              rfl
            rw [hh] at hex
            simp at hex
          · intro c hc hfresh
            exact (bakEntries_backup_then_write ts fs p s).2 c hc hfresh
      · rw [hcfg] at hok
        dsimp only at hok
        simp at hok
    · rw [if_neg hex, if_neg hex] at hok
      dsimp only at hok
      rcases hser : serJ (JsonValue.obj (jsonInsert [] (chars "registry-mirrors")
          (JsonValue.arr [JsonValue.str url]))) with e | s
      · rw [hser] at hok
        simp at hok
      · rw [hser] at hok
        dsimp only at hok
        have hfs2 : fs2 = (backup_file ts (fs.mkdir p.dir) p).write p s :=
          (Except.ok.inj hok).symm
        subst hfs2
        constructor
        · intro h
          have hlm : (fs.mkdir p.dir).lookup p = none := by
            rw [FS.lookup_mkdir]
            exact h
          rw [(bakEntries_backup_then_write ts (fs.mkdir p.dir) p s).1 hlm,
              FS.bakEntries_mkdir]
        · intro c hc hfresh
          have hh : fs.fileExists p = true := by
            unfold FS.fileExists
            rw [hc]
            rfl
          exact absurd hh hex
  · intro h
    unfold apt_set_source
    rw [if_pos h]
  · intro fs2 c hok hc hfresh
    have hex : fs.fileExists p = true := by
      unfold FS.fileExists
      rw [hc]
      rfl
    unfold apt_set_source at hok
    rw [if_neg (by rw [hex]; simp)] at hok
    rcases hcur : aptCurrentUrlOf ((fs.lookup p).getD []) with _ | u
    · rw [hcur] at hok
      dsimp only at hok
      have hfs2 : fs2 = (backup_file ts fs p).write p
          (aptDefaultRewrite distro (aptTargetUrl url) ((fs.lookup p).getD [])) :=
        (Except.ok.inj hok).symm
      subst hfs2
      exact (bakEntries_backup_then_write ts fs p _).2 c hc hfresh
    · rw [hcur] at hok
      dsimp only at hok
      have hfs2 : fs2 = (backup_file ts fs p).write p
          (replaceAll u (aptTargetUrl url) ((fs.lookup p).getD [])) :=
        (Except.ok.inj hok).symm
      subst hfs2
      exact (bakEntries_backup_then_write ts fs p _).2 c hc hfresh

/-- Result of docker set_source on the one-file /etc filesystem. -/
def fsBakDockerAfterW : FS :=
  FS.mk [chars "/etc"]
    [(pBakW, chars "S"),
     (FilePath.mk (chars "/etc") (chars "pip.conf.bak.7"), chars "old")]

/-- Witness for the amended C3: the pip snapshot on a non-empty file, the
pip no-op on a missing file, the unconditional docker snapshot, and the
apt hard error on a missing file. -/
theorem set_source_backup_policy_witness :
    (pip_set_source 7 fsBakW pBakW (chars "https://u")).bakEntries pBakW =
      fsBakW.bakEntries pBakW ++ [(bakName pBakW.name 7, chars "old")] ∧
    (pip_set_source 7 fsEmptyDirW pBakW (chars "https://u")).bakEntries pBakW =
      fsEmptyDirW.bakEntries pBakW ∧
    fsBakDockerAfterW.bakEntries pBakW =
      fsBakW.bakEntries pBakW ++ [(bakName pBakW.name 7, chars "old")] ∧
    apt_set_source 7 (chars "ubuntu") fsEmptyDirW pBakW (chars "https://u") =
      Except.error (chars "Config file not found") := by
  have h1 := set_source_backup_policy 7 fsBakW pBakW (chars "https://u") (chars "ubuntu")
    parseTomlFailW serTomlFailW parseJsonFailW serJsonOkW
  have h2 := set_source_backup_policy 7 fsEmptyDirW pBakW (chars "https://u") (chars "ubuntu")
    parseTomlFailW serTomlFailW parseJsonFailW serJsonOkW
  refine ⟨(h1.2.1 (chars "old") rfl (by decide) (by decide)).1,
          (h2.1 (Or.inl rfl)).1,
          (h1.2.2.2.1 fsBakDockerAfterW (by decide)).2 (chars "old") rfl (by decide),
          h2.2.2.2.2.1 rfl⟩

/-! ## Line-wise behaviour of replaceAll (for claim C8) -/

theorem isPrefixOf_append_sep (sep : Char) (pat : Str) (hsep : sep ∉ pat) :
    ∀ (l r : Str), pat.isPrefixOf (l ++ sep :: r) = pat.isPrefixOf l := by
  induction pat with
  | nil => intro l r; cases l <;> rfl
  | cons x xs ih =>
    intro l r
    have hx : x ≠ sep := by
      intro h
      exact hsep (by rw [h]; exact List.mem_cons_self _ _)
    have hxs : sep ∉ xs := fun h => hsep (List.mem_cons_of_mem _ h)
    cases l with
    | nil =>
      show (x :: xs).isPrefixOf (sep :: r) = false
      have hbx : (x == sep) = false := by
        simp [hx]
      simp [List.isPrefixOf, hbx]
    | cons y l2 =>
      show (x :: xs).isPrefixOf (y :: (l2 ++ sep :: r)) = (x :: xs).isPrefixOf (y :: l2)
      simp only [List.isPrefixOf]
      rw [ih hxs l2 r]

theorem replaceAll_append_sep_bounded (sep : Char) (pat rep : Str)
    (hp : pat ≠ []) (hsep : sep ∉ pat) :
    ∀ (n : Nat) (l r : Str), l.length ≤ n →
      replaceAll pat rep (l ++ sep :: r) =
        replaceAll pat rep l ++ sep :: replaceAll pat rep r := by
  have hpat : 1 ≤ pat.length := by
    cases hq : pat with
    | nil => exact absurd hq hp
    | cons a l => simp
  have hnil : pat.isPrefixOf ([] : Str) = false := by
    cases hq : pat with
    | nil => exact absurd hq hp
    | cons a l => rfl
  intro n
  induction n with
  | zero =>
    intro l r h1
    have hl : l = [] := List.length_eq_zero.mp (Nat.le_zero.mp h1)
    subst hl
    have hnp : pat.isPrefixOf (sep :: r) = false :=
      (isPrefixOf_append_sep sep pat hsep [] r).trans hnil
    rw [List.nil_append,
        replaceAll_cons_neg rep (by intro hx; rw [hnp] at hx; exact absurd hx.2 (by simp)),
        replaceAll_nil, List.nil_append]
  | succ n ih =>
    intro l r h1
    cases l with
    | nil =>
      have hnp : pat.isPrefixOf (sep :: r) = false :=
        (isPrefixOf_append_sep sep pat hsep [] r).trans hnil
      rw [List.nil_append,
          replaceAll_cons_neg rep (by intro hx; rw [hnp] at hx; exact absurd hx.2 (by simp)),
          replaceAll_nil, List.nil_append]
    | cons c l2 =>
      have hiff : pat.isPrefixOf (c :: (l2 ++ sep :: r)) = pat.isPrefixOf (c :: l2) := by
        have := isPrefixOf_append_sep sep pat hsep (c :: l2) r
        rw [List.cons_append] at this
        exact this
      rw [List.cons_append]
      cases hpre : pat.isPrefixOf (c :: l2) with
      | false =>
        have hnl : ¬ (pat ≠ [] ∧ pat.isPrefixOf (c :: (l2 ++ sep :: r)) = true) := by
          rintro ⟨_, hx⟩
          rw [hiff, hpre] at hx
          exact absurd hx (by simp)
        have hnr : ¬ (pat ≠ [] ∧ pat.isPrefixOf (c :: l2) = true) := by
          rintro ⟨_, hx⟩
          rw [hpre] at hx
          exact absurd hx (by simp)
        rw [replaceAll_cons_neg rep hnl, replaceAll_cons_neg rep hnr]
        rw [ih l2 r (by simp at h1; omega)]
        rw [List.cons_append]
      | true =>
        have hpre2 : pat.isPrefixOf (c :: (l2 ++ sep :: r)) = true := by
          rw [hiff]
          exact hpre
        have hlen : pat.length ≤ (c :: l2).length :=
          (List.isPrefixOf_iff_prefix.mp hpre).length_le
        rw [replaceAll_cons_pos rep hp hpre2, replaceAll_cons_pos rep hp hpre]
        rw [show (c : Char) :: (l2 ++ sep :: r) = (c :: l2) ++ sep :: r from
          (List.cons_append c l2 (sep :: r)).symm]
        rw [List.drop_append_of_le_length hlen]
        have hdl : ((c :: l2).drop pat.length).length ≤ n := by
          simp [List.length_drop] at h1 ⊢
          omega
        rw [ih _ r hdl]
        rw [List.append_assoc]

theorem replaceAll_append_sep (sep : Char) (pat rep l r : Str)
    (hp : pat ≠ []) (hsep : sep ∉ pat) :
    replaceAll pat rep (l ++ sep :: r) =
      replaceAll pat rep l ++ sep :: replaceAll pat rep r :=
  replaceAll_append_sep_bounded sep pat rep hp hsep l.length l r (le_refl _)

theorem replaceAll_no_newline_bounded (pat rep : Str) (hrn : '\n' ∉ rep) :
    ∀ (n : Nat) (l : Str), l.length ≤ n → '\n' ∉ l → '\n' ∉ replaceAll pat rep l := by
  intro n
  induction n with
  | zero =>
    intro l h1 _
    have hl : l = [] := List.length_eq_zero.mp (Nat.le_zero.mp h1)
    subst hl
    simp [replaceAll_nil]
  | succ n ih =>
    intro l h1 hl
    cases l with
    | nil => simp [replaceAll_nil]
    | cons c l2 =>
      have hc : c ≠ '\n' := by
        intro h
        exact hl (by rw [h]; exact List.mem_cons_self _ _)
      have hl2 : '\n' ∉ l2 := fun h => hl (List.mem_cons_of_mem _ h)
      by_cases hpre : pat ≠ [] ∧ pat.isPrefixOf (c :: l2) = true
      · have hpat : 1 ≤ pat.length := by
          cases hq : pat with
          | nil => exact absurd hq hpre.1
          | cons a l => simp
        rw [replaceAll_cons_pos rep hpre.1 hpre.2]
        intro hmem
        rcases List.mem_append.mp hmem with hmem | hmem
        · exact hrn hmem
        · have hdl : '\n' ∉ (c :: l2).drop pat.length := by
            intro hx
            exact hl (List.mem_of_mem_drop hx)
          have hdlen : ((c :: l2).drop pat.length).length ≤ n := by
            simp [List.length_drop] at h1 ⊢
            omega
          exact ih _ hdlen hdl hmem
      · rw [replaceAll_cons_neg rep hpre]
        intro hmem
        rcases List.mem_cons.mp hmem with hmem | hmem
        · exact hc hmem.symm
        · exact ih l2 (by simp at h1; omega) hl2 hmem

theorem replaceAll_no_newline (pat rep l : Str) (hrn : '\n' ∉ rep) (hl : '\n' ∉ l) :
    '\n' ∉ replaceAll pat rep l :=
  replaceAll_no_newline_bounded pat rep hrn l.length l (le_refl _) hl

theorem replaceAll_joinLines (pat rep : Str) (hp : pat ≠ []) (hpn : '\n' ∉ pat) :
    ∀ ls : List Str, replaceAll pat rep (joinLines ls) =
      joinLines (ls.map (replaceAll pat rep)) := by
  intro ls
  induction ls with
  | nil => simp [joinLines, replaceAll_nil]
  | cons l ls ih =>
    cases ls with
    | nil => simp [joinLines]
    | cons l2 ls2 =>
      show replaceAll pat rep (l ++ '\n' :: joinLines (l2 :: ls2)) = _
      rw [replaceAll_append_sep '\n' pat rep l _ hp hpn, ih]
      rfl

/-- When neither the pattern nor the replacement contains a newline,
replaceAll acts line by line. -/
theorem splitLines_replaceAll (pat rep s : Str)
    (hp : pat ≠ []) (hpn : '\n' ∉ pat) (hrn : '\n' ∉ rep) :
    splitLines (replaceAll pat rep s) = (splitLines s).map (replaceAll pat rep) := by
  have h1 : replaceAll pat rep s =
      joinLines ((splitLines s).map (replaceAll pat rep)) := by
    rw [show replaceAll pat rep s = replaceAll pat rep (joinLines (splitLines s)) from by
      rw [joinLines_splitLines]]
    exact replaceAll_joinLines pat rep hp hpn (splitLines s)
  rw [h1]
  apply splitLines_joinLines
  · intro hx
    exact splitLines_ne_nil s (List.map_eq_nil.mp hx)
  · intro l hl
    obtain ⟨l0, hl0, rfl⟩ := List.mem_map.mp hl
    exact replaceAll_no_newline pat rep l0 hrn (not_newline_mem_splitLines s l0 hl0)

/-! ## Shape of a detected apt URL (for claim C8) -/

theorem parseAptUrl_spec (terminated : Bool) (r u : Str)
    (h : parseAptUrl terminated r = some u) :
    u ≠ [] ∧ ∀ ch ∈ u, ch.isWhitespace = false := by
  unfold parseAptUrl at h
  dsimp only at h
  split at h
  · have hu : r.takeWhile (fun c => ¬ c.isWhitespace) = u := Option.some.inj h
    rename_i hcond
    rw [hu] at hcond
    constructor
    · simp only [Bool.and_eq_true, Bool.or_eq_true, decide_eq_true_eq] at hcond
      have hpos : 0 < u.length := by
        rcases hcond.1 with ⟨_, h7⟩ | ⟨_, h8⟩ <;> omega
      intro hx
      rw [hx] at hpos
      simp at hpos
    · intro ch hch
      rw [← hu] at hch
      have := List.mem_takeWhile_imp hch
      simpa using this
  · exact absurd h (by simp)

theorem aptAfterBracket_spec (terminated : Bool) :
    ∀ (r u : Str), aptAfterBracket terminated r = some u →
      u ≠ [] ∧ ∀ ch ∈ u, ch.isWhitespace = false := by
  intro r
  induction r with
  | nil =>
    intro u h
    exact Option.noConfusion h
  | cons c r ih =>
    intro u h
    unfold aptAfterBracket at h
    by_cases hc : c = ']'
    · rw [if_pos hc] at h
      rcases hA : aptAfterBracketStep terminated r with _ | u2
      · rw [hA] at h
        dsimp only at h
        exact ih u h
      · rw [hA] at h
        dsimp only at h
        have hu : u2 = u := Option.some.inj h
        subst hu
        unfold aptAfterBracketStep at hA
        cases r with
        | nil => simp at hA
        | cons c2 r2 =>
          dsimp only at hA
          by_cases hw : c2.isWhitespace = true
          · rw [if_pos hw] at hA
            exact parseAptUrl_spec terminated _ u2 hA
          · rw [if_neg hw] at hA
            simp at hA
    · rw [if_neg hc] at h
      exact ih u h

theorem aptLineUrl_spec (terminated : Bool) (line u : Str)
    (h : aptLineUrl terminated line = some u) :
    u ≠ [] ∧ ∀ ch ∈ u, ch.isWhitespace = false := by
  unfold aptLineUrl at h
  by_cases hd : (chars "deb").isPrefixOf line = true
  · rw [if_pos hd] at h
    rcases h3 : line.drop 3 with _ | ⟨c, r0⟩
    · rw [h3] at h
      simp at h
    · rw [h3] at h
      dsimp only at h
      by_cases hw : c.isWhitespace = true
      · rw [if_pos hw] at h
        rcases hdw : (c :: r0).dropWhile (fun x => x.isWhitespace) with _ | ⟨c1, rest⟩
        · rw [hdw] at h
          dsimp only at h
          exact parseAptUrl_spec terminated [] u h
        · rw [hdw] at h
          dsimp only at h
          by_cases hb : c1 = '['
          · rw [if_pos hb] at h
            exact aptAfterBracket_spec terminated rest u h
          · rw [if_neg hb] at h
            exact parseAptUrl_spec terminated (c1 :: rest) u h
      · rw [if_neg hw] at h
        simp at h
  · rw [if_neg hd] at h
    simp at h

theorem aptScanLines_spec :
    ∀ (ls : List Str) (u : Str), aptScanLines ls = some u →
      u ≠ [] ∧ ∀ ch ∈ u, ch.isWhitespace = false := by
  intro ls
  induction ls with
  | nil => intro u h; simp [aptScanLines] at h
  | cons l ls ih =>
    intro u h
    cases ls with
    | nil => exact aptLineUrl_spec false l u h
    | cons l2 ls2 =>
      unfold aptScanLines at h
      rcases hl : aptLineUrl true l with _ | u2
      · rw [hl] at h
        dsimp only at h
        exact ih u h
      · rw [hl] at h
        dsimp only at h
        have hu : u2 = u := Option.some.inj h
        subst hu
        exact aptLineUrl_spec true l u2 hl

theorem aptCurrentUrlOf_spec (content u : Str) (h : aptCurrentUrlOf content = some u) :
    u ≠ [] ∧ ∀ ch ∈ u, ch.isWhitespace = false :=
  aptScanLines_spec (splitLines content) u h

theorem aptTargetUrl_no_newline (murl : Str) (h : '\n' ∉ murl) :
    '\n' ∉ aptTargetUrl murl := by
  unfold aptTargetUrl
  by_cases hl : murl.getLast? = some '/'
  · rw [if_pos hl]
    exact h
  · rw [if_neg hl]
    intro hx
    rcases List.mem_append.mp hx with hx | hx
    · exact h hx
    · simp [chars] at hx

/-- C8: apt set_source on an existing sources file. When a current URL u is
detected on the first active deb line, the written content is the input
content with every textual occurrence of u replaced by the
slash-normalized new mirror URL; line-wise, each line is rewritten by that
same total occurrence replacement, so two active lines carrying the same
original URL are both rewritten, while any line without an occurrence of u
— in particular one carrying a different URL — is left unmodified. When no
current URL is detected, only the known default domain substrings of the
detected distro, in both http and https forms, are replaced: the written
content is the default-domain rewrite, and content free of all those
domain substrings stays unchanged. -/
theorem apt_set_source_url_replacement
    (ts : Nat) (distro : Str) (fs : FS) (p : FilePath) (murl content : Str)
    (hcontent : fs.lookup p = some content)
    (hnlm : '\n' ∉ murl) :
    (∀ u fs2, aptCurrentUrlOf content = some u →
      apt_set_source ts distro fs p murl = Except.ok fs2 →
      fs2.lookup p = some (replaceAll u (aptTargetUrl murl) content) ∧
      splitLines (replaceAll u (aptTargetUrl murl) content) =
        (splitLines content).map (replaceAll u (aptTargetUrl murl)) ∧
      (∀ line ∈ splitLines content, ¬ u <:+: line →
        replaceAll u (aptTargetUrl murl) line = line)) ∧
    (∀ fs2, aptCurrentUrlOf content = none →
      apt_set_source ts distro fs p murl = Except.ok fs2 →
      fs2.lookup p = some (aptDefaultRewrite distro (aptTargetUrl murl) content) ∧
      ((∀ d ∈ aptDefaultDomains distro,
          ¬ (chars "http://" ++ d) <:+: content ∧
          ¬ (chars "https://" ++ d) <:+: content) →
        aptDefaultRewrite distro (aptTargetUrl murl) content = content)) := by
  have hex : fs.fileExists p = true := by
    unfold FS.fileExists
    rw [hcontent]
    rfl
  constructor
  · intro u fs2 hcur hok
    unfold apt_set_source at hok
    rw [if_neg (by rw [hex]; simp), hcontent] at hok
    simp only [Option.getD_some] at hok
    rw [hcur] at hok
    dsimp only at hok
    have hfs2 : fs2 =
        (backup_file ts fs p).write p (replaceAll u (aptTargetUrl murl) content) :=
      (Except.ok.inj hok).symm
    subst hfs2
    have hspec := aptCurrentUrlOf_spec content u hcur
    have hun : '\n' ∉ u := by
      intro hx
      exact absurd (hspec.2 '\n' hx) (by decide)
    refine ⟨FS.lookup_write_self _ _ _, ?_, ?_⟩
    · exact splitLines_replaceAll u (aptTargetUrl murl) content hspec.1 hun
        (aptTargetUrl_no_newline murl hnlm)
    · intro line _ hocc
      exact replaceAll_of_no_occurrence _ hocc
  · intro fs2 hcur hok
    unfold apt_set_source at hok
    rw [if_neg (by rw [hex]; simp), hcontent] at hok
    simp only [Option.getD_some] at hok
    rw [hcur] at hok
    dsimp only at hok
    have hfs2 : fs2 = (backup_file ts fs p).write p
        (aptDefaultRewrite distro (aptTargetUrl murl) content) :=
      (Except.ok.inj hok).symm
    subst hfs2
    refine ⟨FS.lookup_write_self _ _ _, ?_⟩
    intro hnone
    unfold aptDefaultRewrite
    by_cases hd : distro = chars "ubuntu"
    · have hdom : aptDefaultDomains distro =
          [chars "archive.ubuntu.com/ubuntu/", chars "security.ubuntu.com/ubuntu/"] := by
        unfold aptDefaultDomains
        rw [if_pos hd]
      have h1 := hnone (chars "archive.ubuntu.com/ubuntu/")
        (by rw [hdom]; exact List.mem_cons_self _ _)
      have h2 := hnone (chars "security.ubuntu.com/ubuntu/")
        (by rw [hdom]; exact List.mem_cons_of_mem _ (List.mem_cons_self _ _))
      rw [hdom]
      simp only [List.foldl]
      rw [replaceAll_of_no_occurrence _ h1.1, replaceAll_of_no_occurrence _ h1.2,
          replaceAll_of_no_occurrence _ h2.1, replaceAll_of_no_occurrence _ h2.2]
    · have hdom : aptDefaultDomains distro =
          [chars "deb.debian.org/debian/", chars "security.debian.org/debian/"] := by
        unfold aptDefaultDomains
        rw [if_neg hd]
      have h1 := hnone (chars "deb.debian.org/debian/")
        (by rw [hdom]; exact List.mem_cons_self _ _)
      have h2 := hnone (chars "security.debian.org/debian/")
        (by rw [hdom]; exact List.mem_cons_of_mem _ (List.mem_cons_self _ _))
      rw [hdom]
      simp only [List.foldl]
      rw [replaceAll_of_no_occurrence _ h1.1, replaceAll_of_no_occurrence _ h1.2,
          replaceAll_of_no_occurrence _ h2.1, replaceAll_of_no_occurrence _ h2.2]

def contentAptW : Str := chars "deb http://archive.ubuntu.com/ubuntu/ jammy main\ndeb http://archive.ubuntu.com/ubuntu/ jammy-updates main\ndeb http://security.ubuntu.com/ubuntu/ jammy-security main\n"

def uAptW : Str := chars "http://archive.ubuntu.com/ubuntu/"

def murlAptW : Str := chars "http://mirrors.test.example/ubuntu/"

def pAptW : FilePath := FilePath.mk (chars "/etc/apt") (chars "sources.list")

def fsAptW : FS := FS.mk [chars "/etc/apt"] [(pAptW, contentAptW)]

def secLineAptW : Str := chars "deb http://security.ubuntu.com/ubuntu/ jammy-security main"

set_option maxRecDepth 100000 in
theorem apt_set_source_url_replacement_witness :
    splitLines (replaceAll uAptW (aptTargetUrl murlAptW) contentAptW) =
      (splitLines contentAptW).map (replaceAll uAptW (aptTargetUrl murlAptW)) ∧
    replaceAll uAptW (aptTargetUrl murlAptW) secLineAptW = secLineAptW := by
  have h := (apt_set_source_url_replacement 9 (chars "ubuntu") fsAptW pAptW murlAptW
      contentAptW (by decide) (by decide)).1 uAptW
      ((backup_file 9 fsAptW pAptW).write pAptW
        (replaceAll uAptW (aptTargetUrl murlAptW) contentAptW))
      (by decide) rfl
  exact ⟨h.2.1, h.2.2 secLineAptW (by decide) (by decide)⟩
